import Mathlib

/-!
# LRRC servo receiver firmware (`main.c`): embedding and verified properties

The firmware receives 14-byte command frames over USART0, validates them and
drives six Timer B compare registers (servo pulse widths) and two switch
outputs.  A timeout handler raises a fail flag; the main loop then neutralises
the servos and waits for the escape sequence `E N D 255`.

Modelling conventions.

* Plain `char` is the unsigned 8-bit type of the IAR MSP430 compiler whose
  headers the file includes, so a byte is a natural number below 256 and the
  test `cmd == 255` can succeed.  `int` is 16 bits wide.
* Global variables and the hardware registers the code touches are the fields
  of `State`, under their source names.
* `U0TXBUF` is kept as the history of the bytes written to the transmit
  register, oldest first, so that "what was emitted" can be stated.
* The interrupt handlers and `parseCmd` are atomic transitions; the endless
  `while(fail)` loop of `handleFailState` is split into its entry part and one
  loop iteration, so that interrupts can be interleaved with the iterations.
* The store `cmdArr[index] = cmd` has no bounds check in the source.  A store
  past the 14-byte array has no defined behaviour, so `u0RX` returns `none`
  there.  `u0RXTotal` is the same handler as a total function: a byte stored
  past the array lands outside the variables modelled here, and the rest of the
  branch (`index++`, the test of `index`) runs as written, so the link state
  can be followed over any list of bytes.
-/

namespace LRRC

/-- The global `int minPulse = 20400`, never written after initialisation. -/
def minPulse : Int := 20400

/-- The globals of `main.c` and the peripheral registers the code reads or writes. -/
structure State where
  /-- Global `char cmdArr[14]`. -/
  cmdArr : Fin 14 → Nat
  /-- Global `char index`. -/
  index : Nat
  /-- Global `char parse`. -/
  parse : Nat
  /-- Global `char syncd`. -/
  syncd : Nat
  /-- Global `char sncsw1`. -/
  sncsw1 : Nat
  /-- Global `char sncsw2`. -/
  sncsw2 : Nat
  /-- Global `char sncsw3`. -/
  sncsw3 : Nat
  /-- Global `char fail`. -/
  fail : Nat
  /-- Timer B compare registers 1..6 (16-bit). -/
  TBCCR1 : Int
  TBCCR2 : Int
  TBCCR3 : Int
  TBCCR4 : Int
  TBCCR5 : Int
  TBCCR6 : Int
  /-- Port 4 output register (8-bit). -/
  P4OUT : Nat
  /-- Port 1 output register (8-bit). -/
  P1OUT : Nat
  /-- Timer A counter. -/
  TAR : Nat
  /-- Timer B counter. -/
  TBR : Nat
  /-- Timer A capture/compare control register 0. -/
  TACCTL0 : Nat
  /-- Bytes written to the USART0 transmit buffer, oldest first. -/
  U0TXBUF : List Nat

/-- Source function `calcSrvo` (lines 176-181): `if(pos < 157) return pos*8; else return 157*8;`. -/
def calcSrvo (pos : Nat) : Int :=
  if pos < 157 then (pos : Int) * 8 else 157 * 8

/-- Lines 143-148 of `parseCmd`: the six channel compare registers are loaded
from `cmdArr[1..6]`; the `int` result is stored in a 16-bit register. -/
def setServos (s : State) : State :=
  { s with
    TBCCR1 := (minPulse - calcSrvo (s.cmdArr 1)) % 65536
    TBCCR2 := (minPulse - calcSrvo (s.cmdArr 2)) % 65536
    TBCCR3 := (minPulse - calcSrvo (s.cmdArr 3)) % 65536
    TBCCR4 := (minPulse - calcSrvo (s.cmdArr 4)) % 65536
    TBCCR5 := (minPulse - calcSrvo (s.cmdArr 5)) % 65536
    TBCCR6 := (minPulse - calcSrvo (s.cmdArr 6)) % 65536 }

/-- Lines 151-154 of `parseCmd`, the switch command:
`if(cmdArr[7]&0x40) P4OUT |= 0x01; else P4OUT &= 0xFE;`
`if(cmdArr[7]&0x80) P1OUT |= 0x80; else P4OUT &= 0x7F;`. -/
def setSwitches (s : State) : State :=
  let s :=
    if s.cmdArr 7 &&& 0x40 ≠ 0 then { s with P4OUT := s.P4OUT ||| 0x01 }
    else { s with P4OUT := s.P4OUT &&& 0xFE }
  if s.cmdArr 7 &&& 0x80 ≠ 0 then { s with P1OUT := s.P1OUT ||| 0x80 }
  else { s with P4OUT := s.P4OUT &&& 0x7F }

/-- Source function `parseCmd` (lines 124-174). -/
def parseCmd (s : State) : State :=
  let s := { s with index := 0, parse := 0, TAR := 0 }
  if s.cmdArr 0 = 67 ∧ s.syncd ≠ 0 then
    let s :=
      if (s.cmdArr 1 ^^^ s.cmdArr 2 ^^^ s.cmdArr 3 ^^^ s.cmdArr 4 ^^^ s.cmdArr 5 ^^^
          s.cmdArr 6 ^^^ s.cmdArr 7 ^^^ s.cmdArr 8) = s.cmdArr 9 then
        setSwitches (setServos { s with U0TXBUF := s.U0TXBUF ++ [71] })
      else
        { s with U0TXBUF := s.U0TXBUF ++ [107] }
    { s with sncsw1 := 0, sncsw2 := 0, sncsw3 := 0 }
  else
    { s with U0TXBUF := s.U0TXBUF ++ [115], syncd := 0 }

/-- Lines 207-209 of `u0RX`, the store into the frame buffer at a position `i`
inside the array: `cmdArr[index] = cmd; index++; if(index >= 14) parse = 1;`. -/
def storeByte (s : State) (i : Fin 14) (cmd : Nat) : State :=
  let s := { s with cmdArr := Function.update s.cmdArr i cmd, index := (s.index + 1) % 256 }
  if s.index ≥ 14 then { s with parse := 1 } else s

/-- Lines 220-226 of `u0RX`, reached once all three progress flags are set:
`if(cmd == 255) { index = 0; fail = 0; TBR = 0; syncd = 1; }`. -/
def resync (s : State) (cmd : Nat) : State :=
  if cmd = 255 then { s with index := 0, fail := 0, TBR := 0, syncd := 1 } else s

/-- Source interrupt handler `u0RX` (lines 200-230); `cmd` is the byte read from
`U0RXBUF`.  The result is `none` when the unguarded store `cmdArr[index] = cmd`
falls outside the array. -/
def u0RX (s : State) (cmd : Nat) : Option State :=
  let s := { s with U0TXBUF := s.U0TXBUF ++ [cmd] }
  if s.syncd ≠ 0 then
    if h : s.index < 14 then some (storeByte s ⟨s.index, h⟩ cmd) else none
  else if cmd = 69 ∨ s.sncsw1 ≠ 0 then
    let s := { s with sncsw1 := 1 }
    if cmd = 78 ∨ s.sncsw2 ≠ 0 then
      let s := { s with sncsw2 := 1 }
      if cmd = 68 ∨ s.sncsw3 ≠ 0 then
        some (resync { s with sncsw3 := 1 } cmd)
      else some s
    else some s
  else some s

/-- Source interrupt handler `TAFailOut` (lines 233-238). -/
def TAFailOut (s : State) : State :=
  { s with fail := 1, TACCTL0 := s.TACCTL0 &&& 0xFFFE }

/-- The six assignments that open `handleFailState` (lines 185-190). -/
def handleFailStateEntry (s : State) : State :=
  { s with
    TBCCR1 := minPulse % 65536
    TBCCR2 := minPulse % 65536
    TBCCR3 := minPulse % 65536
    TBCCR4 := minPulse % 65536
    TBCCR5 := minPulse % 65536
    TBCCR6 := minPulse % 65536 }

/-- The body of the `while(fail)` loop of `handleFailState` (lines 193-196). -/
def handleFailStateBody (s : State) : State :=
  { s with syncd := 0, sncsw1 := 0, sncsw2 := 0, sncsw3 := 0 }

/-- One evaluation of `while(fail) { ... }`: the body runs when `fail` is set. -/
def handleFailStateIter (s : State) : State :=
  if s.fail ≠ 0 then handleFailStateBody s else s

/-- The `while(fail)` loop run without any interrupt, for at most `fuel` tests of
the condition; `none` when the loop has not ended by then. -/
def handleFailStateLoop : Nat → State → Option State
  | 0, _ => none
  | fuel + 1, s => if s.fail ≠ 0 then handleFailStateLoop fuel (handleFailStateBody s) else some s

/-- Source function `handleFailState` (lines 183-198) run without any interrupt. -/
def handleFailState (fuel : Nat) (s : State) : Option State :=
  handleFailStateLoop fuel (handleFailStateEntry s)

/-- The state after the static initialisers (lines 17-26) and `init` (lines 48-122).
`P1OUT` is not written by `init`, so its power-on value is a parameter. -/
def initState (p1out : Nat) : State where
  cmdArr := fun _ => 0
  index := 0
  parse := 0
  syncd := 1
  sncsw1 := 0
  sncsw2 := 0
  sncsw3 := 0
  fail := 0
  TBCCR1 := minPulse % 65536
  TBCCR2 := minPulse % 65536
  TBCCR3 := minPulse % 65536
  TBCCR4 := minPulse % 65536
  TBCCR5 := minPulse % 65536
  TBCCR6 := minPulse % 65536
  P4OUT := 0x00
  P1OUT := p1out
  TAR := 0
  TBR := 0
  TACCTL0 := 0
  U0TXBUF := []

/-- The atomic transitions of the firmware. -/
inductive Event where
  /-- USART0 receive interrupt delivering one byte. -/
  | rx (cmd : Nat)
  /-- Main loop, line 43: `if(parse) parseCmd();`. -/
  | poll
  /-- A direct call of `parseCmd`. -/
  | call
  /-- Main loop, line 44, up to the loop of `handleFailState`: `if(fail)` then lines 185-190. -/
  | trip
  /-- One evaluation of `while(fail) { ... }` inside `handleFailState`. -/
  | loop
  /-- Timer A interrupt. -/
  | timeout

/-- One transition. -/
def step (s : State) : Event → Option State
  | .rx cmd => u0RX s cmd
  | .poll => some (if s.parse ≠ 0 then parseCmd s else s)
  | .call => some (parseCmd s)
  | .trip => some (if s.fail ≠ 0 then handleFailStateEntry s else s)
  | .loop => some (handleFailStateIter s)
  | .timeout => some (TAFailOut s)

/-- A sequence of transitions, left to right. -/
def run (s : State) : List Event → Option State
  | [] => some s
  | e :: es => (step s e).bind fun s1 => run s1 es

/-- Feeding a list of bytes to `u0RX`, one at a time, nothing interleaved. -/
def feed (s : State) : List Nat → Option State
  | [] => some s
  | b :: bs => (u0RX s b).bind fun s1 => feed s1 bs

/-- The escape sequence `'E'`, `'N'`, `'D'`, `255`. -/
def escapeSeq : List Nat := [69, 78, 68, 255]

/-- The six channel compare registers, in order. -/
def channels (s : State) : List Int :=
  [s.TBCCR1, s.TBCCR2, s.TBCCR3, s.TBCCR4, s.TBCCR5, s.TBCCR6]

/-- The XOR of `byte[1..8]`, as `parseCmd` computes it. -/
def checksum (s : State) : Nat :=
  s.cmdArr 1 ^^^ s.cmdArr 2 ^^^ s.cmdArr 3 ^^^ s.cmdArr 4 ^^^ s.cmdArr 5 ^^^
    s.cmdArr 6 ^^^ s.cmdArr 7 ^^^ s.cmdArr 8

/-- A frame buffer holding the given bytes (missing positions are 0). -/
def frameOf (l : List Nat) : Fin 14 → Nat := fun i => l.getD i.val 0

/-- The receive interrupts delivering the given bytes in order. -/
def rxAll (bs : List Nat) : List Event := bs.map Event.rx

/-- A Synchronized state whose buffer holds the frame
`['C',10,20,30,40,50,60,0x40,0,102,0,0,0,0]`, with `102 = 10^20^30^40^50^60^0x40^0`. -/
def acceptState : State :=
  { initState 0 with cmdArr := frameOf [67, 10, 20, 30, 40, 50, 60, 64, 0, 102, 0, 0, 0, 0] }

/-- A Synchronized state, servos and both ports driven, whose buffer holds a
frame with a wrong checksum byte. -/
def nakState : State :=
  { initState 128 with
    cmdArr := frameOf [67, 10, 20, 30, 40, 50, 60, 64, 0, 103, 0, 0, 0, 0]
    TBCCR1 := 20000, P4OUT := 129 }

/-- A Searching state whose buffer holds a well-formed frame. -/
def searchingState : State :=
  { acceptState with syncd := 0, TBCCR1 := 20000, P4OUT := 129, P1OUT := 128 }

/-- A frame with marker `'C'`, all positions 0, switch byte `0x80`, correct checksum. -/
def frameSwitchBOn : List Nat := [67, 0, 0, 0, 0, 0, 0, 128, 0, 128, 0, 0, 0, 0]

/-- A frame with marker `'C'`, all positions 0, switch byte 0, correct checksum. -/
def frameSwitchBOff : List Nat := [67, 0, 0, 0, 0, 0, 0, 0, 0, 0, 0, 0, 0, 0]

/-- How far the latch recogniser of `u0RX` has got: the number of progress flags
set, read in the order the handler tests them, and 4 once Synchronized. -/
def progress (s : State) : Nat :=
  if s.syncd ≠ 0 then 4
  else if s.sncsw1 = 0 then 0
  else if s.sncsw2 = 0 then 1
  else if s.sncsw3 = 0 then 2
  else 3

/-- The progress flags are set in order: `sncsw2` only with `sncsw1`, `sncsw3` only
with `sncsw2`. -/
def flagsChained (s : State) : Prop :=
  (s.sncsw2 ≠ 0 → s.sncsw1 ≠ 0) ∧ (s.sncsw3 ≠ 0 → s.sncsw2 ≠ 0)

/-- One byte seen at progress `p`: it counts when it is the next byte of the
escape sequence. -/
def advance (p b : Nat) : Nat :=
  if escapeSeq[p]? = some b then p + 1 else p

/-- The progress reached from `p` over a list of bytes. -/
def track (p : Nat) : List Nat → Nat
  | [] => p
  | b :: bs => track (advance p b) bs

/-- The bytes of the escape sequence from position `p` up to, not including,
position `j`. -/
def escapeSegment (p j : Nat) : List Nat := (escapeSeq.drop p).take (j - p)

/-- A Searching state with all three progress flags clear. -/
def searchStart : State := { initState 0 with syncd := 0 }

/-- The fail-safe trips from the initial state and the recovery loop starts: the
timer interrupt, the main loop entering `handleFailState`, one loop iteration. -/
def tripTrace : List Event := [Event.timeout, Event.trip, Event.loop]

/-- The host sends `'E','N','D',255` while the recovery loop runs one iteration
between consecutive bytes. -/
def escapeDuringRecovery : List Event :=
  [Event.rx 69, Event.loop, Event.rx 78, Event.loop, Event.rx 68, Event.loop, Event.rx 255]

/-- Bytes delivered with one recovery-loop iteration after each. -/
def rxWithLoop : List Nat → List Event
  | [] => []
  | b :: bs => Event.rx b :: Event.loop :: rxWithLoop bs

/-- From the initial state: a frame with a wrong marker is received and rejected,
the host resynchronises with `'E','N','D',255`, and a second frame with a
wrong marker is received and rejected. -/
def rejectResyncReject : List Event :=
  rxAll (List.replicate 14 0) ++ [Event.poll] ++ rxAll escapeSeq ++
    rxAll (List.replicate 14 0) ++ [Event.poll]

/-- All six channels at the neutral value `minPulse`. -/
def neutral : List Int := List.replicate 6 minPulse

/-- The bytes received in a sequence of transitions. -/
def bytesOf : List Event → List Nat
  | [] => []
  | Event.rx b :: es => b :: bytesOf es
  | _ :: es => bytesOf es

/-- No transition of the sequence leaves the link Synchronized: on a Searching
link this says that no received byte completes the escape sequence. -/
def noResync : State → List Event → Bool
  | _, [] => true
  | s, e :: es =>
    match step s e with
    | none => true
    | some s1 => decide (s1.syncd = 0) && noResync s1 es

/-- A Searching state whose timer counters hold nonzero counts. -/
def runningTimersState : State := { searchStart with TAR := 5, TBR := 7 }

/-- A Searching state with nonzero timer counts and all three progress flags set. -/
def armedTimersState : State :=
  { runningTimersState with sncsw1 := 1, sncsw2 := 1, sncsw3 := 1 }

/-- Every channel compare register lies between `minPulse - 157*8` and `minPulse`. -/
def channelsInRange (s : State) : Prop :=
  ∀ c ∈ channels s, minPulse - 157 * 8 ≤ c ∧ c ≤ minPulse

/-- A frame is received and accepted, the timeout fires, the fail handling
neutralises the servos, the host resynchronises and sends a second frame. -/
def mixedTrace : List Event :=
  rxAll [67, 200, 20, 30, 40, 50, 255, 64, 0, 103, 0, 0, 0, 0] ++
    [Event.poll, Event.timeout, Event.trip, Event.loop] ++ rxAll escapeSeq ++
    rxAll [67, 10, 20, 30, 40, 50, 60, 64, 0, 102, 0, 0, 0, 0] ++ [Event.poll]

/-- The end-to-end frame `['C',10,20,30,40,50,60,0x40,0,102,0,0,0,0]`, where
`102 = 10^20^30^40^50^60^0x40^0`. -/
def endToEndFrame : List Nat := [67, 10, 20, 30, 40, 50, 60, 64, 0, 102, 0, 0, 0, 0]

/-- Every byte reception of the sequence happens with the frame-ready flag clear:
whenever `parse` has been raised, `parseCmd` has run before the next byte. -/
def framesConsumed : State → List Event → Bool
  | _, [] => true
  | s, e :: es =>
    (match e with
      | Event.rx _ => decide (s.parse = 0)
      | _ => true) &&
    (match step s e with
      | none => true
      | some s1 => framesConsumed s1 es)

/-- The frame index is at most 14, and is 14 only while the frame-ready flag is up. -/
def indexInv (s : State) : Prop :=
  s.index ≤ 14 ∧ (s.index = 14 → s.parse ≠ 0)

/-- Two frames received and consumed in turn, then a timeout, the fail handling
and a resynchronisation, then three more bytes. -/
def consumedTrace : List Event :=
  rxAll endToEndFrame ++ [Event.poll] ++ rxAll frameSwitchBOn ++
    [Event.poll, Event.timeout, Event.trip, Event.loop] ++ rxAll escapeSeq ++
    rxAll [67, 1, 2]

/-- After the second rejection of `rejectResyncReject` the timeout fires and
the main loop enters `handleFailState`, which neutralises the six channels. -/
def staleFlagsTripped : List Event :=
  rejectResyncReject ++ [Event.timeout, Event.trip]

/-! ## Pulse-width mapper -/

theorem calcSrvo_nonneg (pos : Nat) : 0 ≤ calcSrvo pos := by
  unfold calcSrvo
  split <;> omega

theorem calcSrvo_le (pos : Nat) : calcSrvo pos ≤ 1256 := by
  unfold calcSrvo
  split <;> omega

theorem store_channel (pos : Nat) :
    (minPulse - calcSrvo pos) % 65536 = minPulse - calcSrvo pos := by
  have h0 := calcSrvo_nonneg pos
  have h1 := calcSrvo_le pos
  unfold minPulse
  omega

/-! ## Command frame validation and dispatch -/

/-- The fields `setSwitches` leaves alone. -/
theorem setSwitches_frame (s : State) :
    (setSwitches s).cmdArr = s.cmdArr ∧ (setSwitches s).index = s.index ∧
    (setSwitches s).parse = s.parse ∧ (setSwitches s).syncd = s.syncd ∧
    (setSwitches s).sncsw1 = s.sncsw1 ∧ (setSwitches s).sncsw2 = s.sncsw2 ∧
    (setSwitches s).sncsw3 = s.sncsw3 ∧ (setSwitches s).fail = s.fail ∧
    (setSwitches s).TBCCR1 = s.TBCCR1 ∧ (setSwitches s).TBCCR2 = s.TBCCR2 ∧
    (setSwitches s).TBCCR3 = s.TBCCR3 ∧ (setSwitches s).TBCCR4 = s.TBCCR4 ∧
    (setSwitches s).TBCCR5 = s.TBCCR5 ∧ (setSwitches s).TBCCR6 = s.TBCCR6 ∧
    (setSwitches s).TAR = s.TAR ∧ (setSwitches s).TBR = s.TBR ∧
    (setSwitches s).TACCTL0 = s.TACCTL0 ∧ (setSwitches s).U0TXBUF = s.U0TXBUF := by
  unfold setSwitches
  refine ⟨?_, ?_, ?_, ?_, ?_, ?_, ?_, ?_, ?_, ?_, ?_, ?_, ?_, ?_, ?_, ?_, ?_, ?_⟩ <;>
    (dsimp only; split <;> split <;> rfl)

/-- The accepting path of `parseCmd`. -/
theorem parseCmd_eq_accept (s : State) (hsync : s.syncd ≠ 0) (hmark : s.cmdArr 0 = 67)
    (hsum : checksum s = s.cmdArr 9) :
    parseCmd s =
      { setSwitches (setServos { s with index := 0, parse := 0, TAR := 0,
                                        U0TXBUF := s.U0TXBUF ++ [71] }) with
        sncsw1 := 0, sncsw2 := 0, sncsw3 := 0 } := by
  unfold checksum at hsum
  simp [parseCmd, hmark, hsync, hsum]

/-- The checksum-failure path of `parseCmd`. -/
theorem parseCmd_eq_nak (s : State) (hsync : s.syncd ≠ 0) (hmark : s.cmdArr 0 = 67)
    (hsum : checksum s ≠ s.cmdArr 9) :
    parseCmd s =
      { s with index := 0, parse := 0, TAR := 0, U0TXBUF := s.U0TXBUF ++ [107],
               sncsw1 := 0, sncsw2 := 0, sncsw3 := 0 } := by
  unfold checksum at hsum
  simp [parseCmd, hmark, hsync, hsum]

/-- The sync/marker rejection path of `parseCmd`. -/
theorem parseCmd_eq_reject (s : State) (h : s.cmdArr 0 ≠ 67 ∨ s.syncd = 0) :
    parseCmd s =
      { s with index := 0, parse := 0, TAR := 0, U0TXBUF := s.U0TXBUF ++ [115], syncd := 0 } := by
  have hc : ¬ (s.cmdArr 0 = 67 ∧ s.syncd ≠ 0) := by
    rintro ⟨h1, h2⟩
    rcases h with h | h
    · exact h h1
    · exact h2 h
  simp [parseCmd, hc]

/-- Claim C1: on a Synchronized link, a frame with marker `'C'` and `byte[9]` equal
to the XOR of `byte[1..8]` makes `parseCmd` emit exactly the byte `'G'`, load
every channel compare register `i` with `minPulse - calcSrvo(byte[i])`, and
leave the link Synchronized. -/
theorem parseCmd_accept (s : State) (hsync : s.syncd ≠ 0) (hmark : s.cmdArr 0 = 67)
    (hsum : checksum s = s.cmdArr 9) :
    (parseCmd s).U0TXBUF = s.U0TXBUF ++ [71] ∧
    (parseCmd s).TBCCR1 = minPulse - calcSrvo (s.cmdArr 1) ∧
    (parseCmd s).TBCCR2 = minPulse - calcSrvo (s.cmdArr 2) ∧
    (parseCmd s).TBCCR3 = minPulse - calcSrvo (s.cmdArr 3) ∧
    (parseCmd s).TBCCR4 = minPulse - calcSrvo (s.cmdArr 4) ∧
    (parseCmd s).TBCCR5 = minPulse - calcSrvo (s.cmdArr 5) ∧
    (parseCmd s).TBCCR6 = minPulse - calcSrvo (s.cmdArr 6) ∧
    (parseCmd s).syncd = s.syncd ∧ (parseCmd s).syncd ≠ 0 := by
  rw [parseCmd_eq_accept s hsync hmark hsum]
  simp [setSwitches_frame, setServos, store_channel, hsync]

/-- Witness for `parseCmd_accept`. -/
theorem parseCmd_accept_witness :
    acceptState.syncd ≠ 0 ∧ acceptState.cmdArr 0 = 67 ∧
    checksum acceptState = acceptState.cmdArr 9 ∧
    (parseCmd acceptState).U0TXBUF = acceptState.U0TXBUF ++ [71] ∧
    (parseCmd acceptState).TBCCR1 = minPulse - calcSrvo (acceptState.cmdArr 1) :=
  ⟨by decide, by decide, by decide,
   (parseCmd_accept acceptState (by decide) (by decide) (by decide)).1,
   (parseCmd_accept acceptState (by decide) (by decide) (by decide)).2.1⟩

/-- Claim C2: on a Synchronized link, a frame with marker `'C'` whose `byte[9]`
differs from the XOR of `byte[1..8]` makes `parseCmd` emit exactly the byte
`'k'`, leave the six channel compare registers and both port output registers
unchanged, and leave the link Synchronized. -/
theorem parseCmd_checksum_mismatch (s : State) (hsync : s.syncd ≠ 0)
    (hmark : s.cmdArr 0 = 67) (hsum : checksum s ≠ s.cmdArr 9) :
    (parseCmd s).U0TXBUF = s.U0TXBUF ++ [107] ∧
    channels (parseCmd s) = channels s ∧
    (parseCmd s).P4OUT = s.P4OUT ∧ (parseCmd s).P1OUT = s.P1OUT ∧
    (parseCmd s).syncd = s.syncd ∧ (parseCmd s).syncd ≠ 0 := by
  rw [parseCmd_eq_nak s hsync hmark hsum]
  exact ⟨rfl, rfl, rfl, rfl, rfl, hsync⟩

/-- Witness for `parseCmd_checksum_mismatch`. -/
theorem parseCmd_checksum_mismatch_witness :
    nakState.syncd ≠ 0 ∧ nakState.cmdArr 0 = 67 ∧ checksum nakState ≠ nakState.cmdArr 9 ∧
    (parseCmd nakState).U0TXBUF = nakState.U0TXBUF ++ [107] ∧
    channels (parseCmd nakState) = channels nakState :=
  ⟨by decide, by decide, by decide,
   (parseCmd_checksum_mismatch nakState (by decide) (by decide) (by decide)).1,
   (parseCmd_checksum_mismatch nakState (by decide) (by decide) (by decide)).2.1⟩

/-- Claim C3: when `byte[0]` is not `'C'` or the link is not Synchronized,
`parseCmd` emits exactly the byte `'s'`, clears `syncd` (Searching), and leaves
the six channel compare registers and both port output registers unchanged,
whatever the checksum byte is. -/
theorem parseCmd_reject (s : State) (h : s.cmdArr 0 ≠ 67 ∨ s.syncd = 0) :
    (parseCmd s).U0TXBUF = s.U0TXBUF ++ [115] ∧
    (parseCmd s).syncd = 0 ∧
    channels (parseCmd s) = channels s ∧
    (parseCmd s).P4OUT = s.P4OUT ∧ (parseCmd s).P1OUT = s.P1OUT := by
  rw [parseCmd_eq_reject s h]
  exact ⟨rfl, rfl, rfl, rfl, rfl⟩

/-- Witness for `parseCmd_reject`. -/
theorem parseCmd_reject_witness :
    (searchingState.cmdArr 0 ≠ 67 ∨ searchingState.syncd = 0) ∧
    (parseCmd searchingState).U0TXBUF = searchingState.U0TXBUF ++ [115] ∧
    (parseCmd searchingState).syncd = 0 :=
  ⟨Or.inr (by decide),
   (parseCmd_reject searchingState (Or.inr (by decide))).1,
   (parseCmd_reject searchingState (Or.inr (by decide))).2.1⟩

/-- Claim C4, as stated, fails: at position byte 157 `calcSrvo` returns
`157*8 = 1256`, not `min(157,156)*8 = 1248`. -/
theorem calcSrvo_not_min156 :
    (157 : Nat) ≤ 255 ∧ calcSrvo 157 = 1256 ∧ calcSrvo 157 ≠ ((min 157 156 * 8 : Nat) : Int) := by
  decide

/-- Claim C4, amended: for every position byte `pos` in 0..255, `calcSrvo pos`
is `min(pos, 157) * 8`. -/
theorem calcSrvo_eq_min157 (pos : Nat) (hpos : pos ≤ 255) :
    calcSrvo pos = ((min pos 157 * 8 : Nat) : Int) := by
  unfold calcSrvo
  split
  · rw [min_eq_left (by omega)]
    push_cast
    rfl
  · rw [min_eq_right (by omega)]
    rfl

/-- Witness for `calcSrvo_eq_min157`. -/
theorem calcSrvo_eq_min157_witness :
    (200 : Nat) ≤ 255 ∧ calcSrvo 200 = ((min 200 157 * 8 : Nat) : Int) :=
  ⟨by decide, calcSrvo_eq_min157 200 (by decide)⟩

/-- Claim C5, evaluated on the code: from the initial state (both ports low) the
frame with switch bit `0x80` set is accepted (`'G'`) and raises bit 7 of `P1OUT`
while bit 7 of `P4OUT` stays low; the next accepted frame, with bit `0x80`
clear, clears bit 7 of `P4OUT` and leaves bit 7 of `P1OUT` high.  The output is
set on one port and cleared on another, and is never turned off. -/
theorem parseCmd_switchB_set_and_clear_differ :
    (run (initState 0) (rxAll frameSwitchBOn ++ [Event.poll])).map
        (fun s => (s.U0TXBUF.getLast?, s.P4OUT &&& 0x80, s.P1OUT &&& 0x80))
      = some (some 71, 0, 128) ∧
    (run (initState 0) (rxAll frameSwitchBOn ++ [Event.poll] ++
          rxAll frameSwitchBOff ++ [Event.poll])).map
        (fun s => (s.U0TXBUF.getLast?, s.P4OUT &&& 0x80, s.P1OUT &&& 0x80))
      = some (some 71, 0, 128) := by
  constructor <;> rfl

/-! ## Byte reception while Searching -/

/-- On a Searching link `u0RX` either takes the resynchronising branch, exactly
when the byte is 255 and the three progress flags are set, or only echoes the
byte and writes progress flags. -/
theorem u0RX_searching_cases (s : State) (cmd : Nat) (hs : s.syncd = 0) :
    ((cmd = 255 ∧ s.sncsw1 ≠ 0 ∧ s.sncsw2 ≠ 0 ∧ s.sncsw3 ≠ 0) ∧
      u0RX s cmd = some { s with U0TXBUF := s.U0TXBUF ++ [cmd], sncsw1 := 1, sncsw2 := 1,
                                 sncsw3 := 1, index := 0, fail := 0, TBR := 0, syncd := 1 }) ∨
    (¬ (cmd = 255 ∧ s.sncsw1 ≠ 0 ∧ s.sncsw2 ≠ 0 ∧ s.sncsw3 ≠ 0) ∧
      ∃ a b c, u0RX s cmd = some { s with U0TXBUF := s.U0TXBUF ++ [cmd], sncsw1 := a,
                                          sncsw2 := b, sncsw3 := c }) := by
  unfold u0RX resync
  simp only [hs, ne_eq, not_true_eq_false, if_false]
  by_cases h255 : cmd = 255
  · subst h255
    by_cases h1 : s.sncsw1 = 0
    · right
      exact ⟨by simp [h1], s.sncsw1, s.sncsw2, s.sncsw3, by simp [h1]⟩
    · by_cases h2 : s.sncsw2 = 0
      · right
        exact ⟨by simp [h2], 1, s.sncsw2, s.sncsw3, by simp [h1, h2]⟩
      · by_cases h3 : s.sncsw3 = 0
        · right
          exact ⟨by simp [h3], 1, 1, s.sncsw3, by simp [h1, h2, h3]⟩
        · left
          exact ⟨⟨rfl, h1, h2, h3⟩, by simp [h1, h2, h3]⟩
  · right
    refine ⟨fun h => h255 h.1, ?_⟩
    split
    · split
      · split
        · exact ⟨1, 1, 1, by simp [h255]⟩
        · exact ⟨1, 1, s.sncsw3, rfl⟩
      · exact ⟨1, s.sncsw2, s.sncsw3, rfl⟩
    · exact ⟨s.sncsw1, s.sncsw2, s.sncsw3, rfl⟩

/-- Claim C10: on a Searching link one invocation of `u0RX` returns, and makes the
link Synchronized exactly when the byte is 255 and all three progress flags
were already set; in that case it resets `index` to 0 and clears `fail`; in every
other case `syncd`, `index`, `fail` and the frame buffer are unchanged. -/
theorem u0RX_searching_step (s : State) (cmd : Nat) (hs : s.syncd = 0) :
    ∃ s1, u0RX s cmd = some s1 ∧
      (s1.syncd ≠ 0 ↔ (cmd = 255 ∧ s.sncsw1 ≠ 0 ∧ s.sncsw2 ≠ 0 ∧ s.sncsw3 ≠ 0)) ∧
      (s1.syncd ≠ 0 → s1.index = 0 ∧ s1.fail = 0) ∧
      (s1.syncd = 0 →
        s1.syncd = s.syncd ∧ s1.index = s.index ∧ s1.fail = s.fail ∧ s1.cmdArr = s.cmdArr) := by
  rcases u0RX_searching_cases s cmd hs with ⟨hc, he⟩ | ⟨hc, a, b, c, he⟩
  · refine ⟨_, he, ?_, ?_, ?_⟩
    · simp [hc]
    · intro _
      exact ⟨rfl, rfl⟩
    · intro h
      simp at h
  · refine ⟨_, he, ?_, ?_, ?_⟩
    · simp only [hs, ne_eq, not_true_eq_false, false_iff]
      exact hc
    · intro h
      exact absurd hs h
    · intro _
      exact ⟨rfl, rfl, rfl, rfl⟩

/-- Witness for `u0RX_searching_step`: with the three flags set, byte 255
resynchronises a Searching link. -/
theorem u0RX_searching_step_witness :
    ({ searchStart with sncsw1 := 1, sncsw2 := 1, sncsw3 := 1 } : State).syncd = 0 ∧
    ∃ s1, u0RX { searchStart with sncsw1 := 1, sncsw2 := 1, sncsw3 := 1 } 255 = some s1 ∧
      (s1.syncd ≠ 0 ↔ ((255 : Nat) = 255 ∧ (1 : Nat) ≠ 0 ∧ (1 : Nat) ≠ 0 ∧ (1 : Nat) ≠ 0)) :=
  ⟨rfl,
   (u0RX_searching_step { searchStart with sncsw1 := 1, sncsw2 := 1, sncsw3 := 1 } 255 rfl).imp
     fun _ h => ⟨h.1, h.2.1⟩⟩

/-- On a Searching link with chained flags, `u0RX` moves the recogniser by
`advance` and keeps the flags chained. -/
theorem u0RX_progress (s : State) (cmd : Nat) (hs : s.syncd = 0) (hc : flagsChained s) :
    ∃ s1, u0RX s cmd = some s1 ∧ flagsChained s1 ∧
      progress s1 = advance (progress s) cmd ∧ (s1.syncd ≠ 0 → s1.index = 0) := by
  obtain ⟨h21, h32⟩ := hc
  unfold u0RX resync
  simp only [hs, ne_eq, not_true_eq_false, if_false]
  by_cases h1 : s.sncsw1 = 0
  · have h2 : s.sncsw2 = 0 := by
      by_contra h
      exact h21 h h1
    have h3 : s.sncsw3 = 0 := by
      by_contra h
      exact h32 h h2
    by_cases hE : cmd = 69
    · subst hE
      refine ⟨_, (by simp [h1, h2]; rfl), ?_, ?_, ?_⟩ <;>
        simp [flagsChained, progress, advance, escapeSeq, hs, h1, h2, h3]
    · have hE2 : ¬ 69 = cmd := fun h => hE h.symm
      refine ⟨_, (by simp [h1, hE]; rfl), ?_, ?_, ?_⟩ <;>
        simp [flagsChained, progress, advance, escapeSeq, hs, h1, h2, h3, hE2]
  · by_cases h2 : s.sncsw2 = 0
    · have h3 : s.sncsw3 = 0 := by
        by_contra h
        exact h32 h h2
      by_cases hN : cmd = 78
      · subst hN
        refine ⟨_, (by simp [h1, h2, h3]; rfl), ?_, ?_, ?_⟩ <;>
          simp [flagsChained, progress, advance, escapeSeq, hs, h1, h2, h3]
      · have hN2 : ¬ 78 = cmd := fun h => hN h.symm
        refine ⟨_, (by simp [h1, h2, hN]; rfl), ?_, ?_, ?_⟩ <;>
          simp [flagsChained, progress, advance, escapeSeq, hs, h1, h2, h3, hN2]
    · by_cases h3 : s.sncsw3 = 0
      · by_cases hD : cmd = 68
        · subst hD
          refine ⟨_, (by simp [h1, h2, h3]; rfl), ?_, ?_, ?_⟩ <;>
            simp [flagsChained, progress, advance, escapeSeq, hs, h1, h2, h3]
        · have hD2 : ¬ 68 = cmd := fun h => hD h.symm
          refine ⟨_, (by simp [h1, h2, h3, hD]; rfl), ?_, ?_, ?_⟩ <;>
            simp [flagsChained, progress, advance, escapeSeq, hs, h1, h2, h3, hD2]
      · by_cases hF : cmd = 255
        · subst hF
          refine ⟨_, (by simp [h1, h2, h3]; rfl), ?_, ?_, ?_⟩ <;>
            simp [flagsChained, progress, advance, escapeSeq, hs, h1, h2, h3]
        · have hF2 : ¬ 255 = cmd := fun h => hF h.symm
          refine ⟨_, (by simp [h1, h2, h3, hF]; rfl), ?_, ?_, ?_⟩ <;>
            simp [flagsChained, progress, advance, escapeSeq, hs, h1, h2, h3, hF2]

/-! ## The latch recogniser on lists of bytes -/

theorem cons_sublist_cons_of_ne {a b : Nat} {l bs : List Nat} (h : a ≠ b) :
    List.Sublist (a :: l) (b :: bs) ↔ List.Sublist (a :: l) bs := by
  constructor
  · intro h1
    cases h1 with
    | cons _ h2 => exact h2
    | cons₂ _ _ => exact absurd rfl h
  · intro h1
    exact h1.cons b

theorem advance_ge (p b : Nat) : p ≤ advance p b := by
  unfold advance
  split <;> omega

theorem track_ge (bs : List Nat) : ∀ p, p ≤ track p bs := by
  induction bs with
  | nil => intro p; exact le_refl p
  | cons b bs ih => intro p; exact le_trans (advance_ge p b) (ih _)

theorem escapeSegment_self (p : Nat) : escapeSegment p p = [] := by
  simp [escapeSegment]

theorem escapeSegment_cons (p j : Nat) (hpj : p < j) (hj : j ≤ 4) :
    escapeSeq[p]? = some (escapeSeq.getD p 0) ∧
    escapeSegment p j = escapeSeq.getD p 0 :: escapeSegment (p + 1) j := by
  interval_cases j <;> interval_cases p <;> exact ⟨rfl, rfl⟩

/-- The recogniser has reached position `j` after a list of bytes exactly when the
bytes of the escape sequence between the start position and `j` occur in the
list, in order. -/
theorem le_track_iff (bs : List Nat) :
    ∀ p j, p ≤ j → j ≤ 4 → (j ≤ track p bs ↔ List.Sublist (escapeSegment p j) bs) := by
  induction bs with
  | nil =>
    intro p j hpj hj
    rcases Nat.eq_or_lt_of_le hpj with rfl | hlt
    · simp [track, escapeSegment_self]
    · rw [(escapeSegment_cons p j hlt hj).2]
      simp [track]
      omega
  | cons b bs ih =>
    intro p j hpj hj
    rcases Nat.eq_or_lt_of_le hpj with rfl | hlt
    · simp [escapeSegment_self, track_ge]
    · obtain ⟨hget, hseg⟩ := escapeSegment_cons p j hlt hj
      rw [hseg]
      show j ≤ track (advance p b) bs ↔ _
      by_cases hb : escapeSeq.getD p 0 = b
      · have hadv : advance p b = p + 1 := by
          unfold advance
          rw [hget, hb]
          simp
        rw [hadv, ih (p + 1) j hlt hj, hb, List.cons_sublist_cons]
      · have hadv : advance p b = p := by
          unfold advance
          rw [hget, if_neg]
          intro h
          exact hb (Option.some.inj h)
        rw [hadv, ih p j hpj hj, hseg, cons_sublist_cons_of_ne hb]

theorem advance_le_four (p b : Nat) (hp : p ≤ 4) : advance p b ≤ 4 := by
  unfold advance
  split
  · rename_i h
    interval_cases p <;> simp_all [escapeSeq]
  · exact hp

theorem track_le_four (bs : List Nat) : ∀ p, p ≤ 4 → track p bs ≤ 4 := by
  induction bs with
  | nil => intro p hp; exact hp
  | cons b bs ih => intro p hp; exact ih _ (advance_le_four p b hp)

theorem track_four (bs : List Nat) : track 4 bs = 4 :=
  le_antisymm (track_le_four bs 4 (le_refl 4)) (track_ge bs 4)

theorem progress_le_four (s : State) : progress s ≤ 4 := by
  unfold progress
  split_ifs <;> omega

theorem progress_eq_four_iff (s : State) : progress s = 4 ↔ s.syncd ≠ 0 := by
  unfold progress
  split_ifs <;> simp_all

theorem progress_of_clear (s : State) (hs : s.syncd = 0) (h1 : s.sncsw1 = 0) :
    progress s = 0 := by
  simp [progress, hs, h1]

/-! ## Byte reception while Synchronized, and runs of `u0RX` -/

/-- On a Synchronized link `u0RX` stores the byte when `index` is inside the array. -/
theorem u0RX_synced (s : State) (cmd : Nat) (hs : s.syncd ≠ 0) (hi : s.index < 14) :
    u0RX s cmd = some (storeByte { s with U0TXBUF := s.U0TXBUF ++ [cmd] } ⟨s.index, hi⟩ cmd) := by
  simp [u0RX, hs, hi]

/-- On a Synchronized link `u0RX` has no defined result when `index` is outside the array. -/
theorem u0RX_synced_none (s : State) (cmd : Nat) (hs : s.syncd ≠ 0) (hi : ¬ s.index < 14) :
    u0RX s cmd = none := by
  simp [u0RX, hs, hi]

theorem storeByte_syncd (s : State) (i : Fin 14) (cmd : Nat) :
    (storeByte s i cmd).syncd = s.syncd := by
  unfold storeByte
  dsimp only
  split <;> rfl

theorem storeByte_index (s : State) (i : Fin 14) (cmd : Nat) :
    (storeByte s i cmd).index = (s.index + 1) % 256 := by
  unfold storeByte
  dsimp only
  split <;> rfl

/-- The byte-reception handler never clears `syncd`. -/
theorem u0RX_keeps_sync (s s1 : State) (cmd : Nat) (hs : s.syncd ≠ 0)
    (h : u0RX s cmd = some s1) : s1.syncd = s.syncd := by
  by_cases hi : s.index < 14
  · rw [u0RX_synced s cmd hs hi] at h
    rw [← Option.some.inj h, storeByte_syncd]
  · rw [u0RX_synced_none s cmd hs hi] at h
    exact absurd h (by simp)

theorem feed_keeps_sync (bs : List Nat) :
    ∀ s s1, s.syncd ≠ 0 → feed s bs = some s1 → s1.syncd = s.syncd := by
  induction bs with
  | nil =>
    intro s s1 _ h
    rw [← Option.some.inj h]
  | cons b bs ih =>
    intro s s1 hs h
    simp only [feed] at h
    cases hu : u0RX s b with
    | none => simp [hu] at h
    | some s2 =>
      rw [hu] at h
      have h2 := u0RX_keeps_sync s s2 b hs hu
      rw [ih s2 s1 (by rw [h2]; exact hs) h, h2]

/-- On a Synchronized link, bytes that fit the rest of the buffer are all stored. -/
theorem feed_synced (bs : List Nat) :
    ∀ s, s.syncd ≠ 0 → s.index + bs.length ≤ 14 →
      ∃ s1, feed s bs = some s1 ∧ s1.syncd = s.syncd ∧ s1.index = s.index + bs.length := by
  induction bs with
  | nil =>
    intro s _ _
    exact ⟨s, rfl, rfl, rfl⟩
  | cons b bs ih =>
    intro s hs hlen
    simp only [List.length_cons] at hlen
    have hi : s.index < 14 := by omega
    have hu := u0RX_synced s b hs hi
    obtain ⟨s1, h1, h2, h3⟩ := ih (storeByte { s with U0TXBUF := s.U0TXBUF ++ [b] } ⟨s.index, hi⟩ b)
      (by rw [storeByte_syncd]; exact hs)
      (by rw [storeByte_index]; show (s.index + 1) % 256 + bs.length ≤ 14; omega)
    refine ⟨s1, ?_, ?_, ?_⟩
    · simp only [feed, hu, Option.some_bind]
      exact h1
    · rw [h2, storeByte_syncd]
    · rw [h3, storeByte_index]
      show (s.index + 1) % 256 + bs.length = s.index + (bs.length + 1)
      omega

theorem feed_append (as bs : List Nat) :
    ∀ s, feed s (as ++ bs) = (feed s as).bind fun s1 => feed s1 bs := by
  induction as with
  | nil => intro s; rfl
  | cons a as ih =>
    intro s
    simp only [List.cons_append, feed]
    cases u0RX s a with
    | none => rfl
    | some s1 => simp only [Option.some_bind]; exact ih s1

/-- While the recogniser stays below 4, a run of `u0RX` on a Searching link with
chained flags returns, stays Searching and follows `track`. -/
theorem feed_searching (bs : List Nat) :
    ∀ s, s.syncd = 0 → flagsChained s → track (progress s) bs < 4 →
      ∃ s1, feed s bs = some s1 ∧ s1.syncd = 0 ∧ flagsChained s1 ∧
        progress s1 = track (progress s) bs := by
  induction bs with
  | nil =>
    intro s hs hc _
    exact ⟨s, rfl, hs, hc, rfl⟩
  | cons b bs ih =>
    intro s hs hc ht
    obtain ⟨s1, hu, hc1, hp1, _⟩ := u0RX_progress s b hs hc
    have ht1 : track (progress s1) bs < 4 := by rw [hp1]; exact ht
    have hs1 : s1.syncd = 0 := by
      by_contra h
      have h4 := (progress_eq_four_iff s1).2 h
      have hge := track_ge bs (progress s1)
      omega
    obtain ⟨s2, h2, hs2, hc2, hp2⟩ := ih s1 hs1 hc1 ht1
    refine ⟨s2, ?_, hs2, hc2, ?_⟩
    · simp only [feed, hu, Option.some_bind]
      exact h2
    · rw [hp2, hp1]
      rfl

/-- Whenever a run of `u0RX` from chained flags returns, the link is Synchronized
at the end exactly when the recogniser has reached 4. -/
theorem feed_sync_iff (bs : List Nat) :
    ∀ s s1, flagsChained s → feed s bs = some s1 →
      (s1.syncd ≠ 0 ↔ track (progress s) bs = 4) := by
  induction bs with
  | nil =>
    intro s s1 _ h
    rw [← Option.some.inj h]
    exact (progress_eq_four_iff s).symm
  | cons b bs ih =>
    intro s s1 hc h
    by_cases hs : s.syncd = 0
    · obtain ⟨s2, hu, hc2, hp2, _⟩ := u0RX_progress s b hs hc
      simp only [feed, hu, Option.some_bind] at h
      rw [ih s2 s1 hc2 h, hp2]
      rfl
    · have h4 := (progress_eq_four_iff s).2 hs
      rw [h4, track_four, feed_keeps_sync (b :: bs) s s1 hs h]
      simp [hs]

/-- Runs of `u0RX` whose stores all stay inside the buffer, from a Searching state
with the progress flags clear: whenever the run returns, the link is
Synchronized at the end exactly when the list contains `'E','N','D',255` as a
subsequence; the run returns, Searching, for every list without the
subsequence, and returns, Synchronized, when at most 14 bytes follow the 255
that first completes it. -/
theorem feed_resync_iff_in_bounds (s : State) (bs : List Nat) (hs : s.syncd = 0)
    (h1 : s.sncsw1 = 0) (h2 : s.sncsw2 = 0) (h3 : s.sncsw3 = 0) :
    (∀ s1, feed s bs = some s1 → (s1.syncd ≠ 0 ↔ List.Sublist escapeSeq bs)) ∧
    (¬ List.Sublist escapeSeq bs → ∃ s1, feed s bs = some s1 ∧ s1.syncd = 0) ∧
    (∀ pre post, bs = pre ++ 255 :: post → List.Sublist [69, 78, 68] pre →
      ¬ List.Sublist escapeSeq pre → post.length ≤ 14 →
      ∃ s1, feed s bs = some s1 ∧ s1.syncd ≠ 0 ∧ s1.index = post.length) := by
  have hc : flagsChained s := by
    constructor
    · intro h; exact absurd h2 h
    · intro h; exact absurd h3 h
  have hp : progress s = 0 := progress_of_clear s hs h1
  have hseg4 : escapeSegment 0 4 = escapeSeq := rfl
  have hseg3 : escapeSegment 0 3 = [69, 78, 68] := rfl
  have hsub : ∀ l : List Nat, track 0 l = 4 ↔ List.Sublist escapeSeq l := by
    intro l
    rw [← hseg4, ← le_track_iff l 0 4 (by omega) (le_refl 4)]
    have := track_le_four l 0 (by omega)
    omega
  refine ⟨?_, ?_, ?_⟩
  · intro s1 hf
    rw [feed_sync_iff bs s s1 hc hf, hp, hsub]
  · intro hn
    have ht : track (progress s) bs < 4 := by
      rw [hp]
      have hle := track_le_four bs 0 (by omega)
      have hne : track 0 bs ≠ 4 := fun h => hn ((hsub bs).1 h)
      omega
    obtain ⟨s1, hf, hs1, _, _⟩ := feed_searching bs s hs hc ht
    exact ⟨s1, hf, hs1⟩
  · intro pre post hbs h3sub hnsub hlen
    have ht3 : track 0 pre = 3 := by
      have hge : 3 ≤ track 0 pre := by
        rw [le_track_iff pre 0 3 (by omega) (by omega), hseg3]
        exact h3sub
      have hle := track_le_four pre 0 (by omega)
      have hne : track 0 pre ≠ 4 := fun h => hnsub ((hsub pre).1 h)
      omega
    obtain ⟨s1, hf1, hs1, hc1, hp1⟩ :=
      feed_searching pre s hs hc (by rw [hp, ht3]; omega)
    rw [hp, ht3] at hp1
    obtain ⟨s2, hu2, _, hp2, hidx2⟩ := u0RX_progress s1 255 hs1 hc1
    have hs2 : s2.syncd ≠ 0 := by
      rw [← progress_eq_four_iff, hp2, hp1]
      rfl
    obtain ⟨s3, hf3, hs3, hi3⟩ := feed_synced post s2 hs2 (by rw [hidx2 hs2]; omega)
    refine ⟨s3, ?_, ?_, ?_⟩
    · rw [hbs, feed_append, hf1]
      simp only [Option.some_bind, feed, hu2]
      exact hf3
    · rw [hs3]
      exact hs2
    · rw [hi3, hidx2 hs2]
      omega

/-- Claim C6, evaluated on the code: after the fail-safe has tripped (`fail = 1`,
Searching), the bytes `'E','N','D',255` with one recovery-loop iteration between
consecutive bytes leave `fail` set and the link Searching: each iteration
clears the progress flag the previous byte had set. -/
theorem recovery_loop_blocks_escape :
    (run (initState 0) tripTrace).map (fun s => (s.fail, s.syncd)) = some (1, 0) ∧
    (run (initState 0) (tripTrace ++ escapeDuringRecovery)).map
        (fun s => (s.fail, s.syncd, s.sncsw1, s.sncsw2, s.sncsw3))
      = some (1, 0, 0, 0, 0) := by
  constructor <;> rfl

/-- With `fail` set, the link Searching and the progress flags clear, no list of
bytes whatever, delivered with a recovery-loop iteration after each byte, clears
`fail` or resynchronises the link. -/
theorem rxWithLoop_never_recovers (bs : List Nat) :
    ∀ s, s.fail ≠ 0 → s.syncd = 0 → s.sncsw1 = 0 → s.sncsw2 = 0 → s.sncsw3 = 0 →
      ∃ s1, run s (rxWithLoop bs) = some s1 ∧ s1.fail = s.fail ∧ s1.syncd = 0 ∧
        s1.sncsw1 = 0 ∧ s1.sncsw2 = 0 ∧ s1.sncsw3 = 0 := by
  induction bs with
  | nil =>
    intro s _ hs h1 h2 h3
    exact ⟨s, rfl, rfl, hs, h1, h2, h3⟩
  | cons b bs ih =>
    intro s hf hs h1 h2 h3
    rcases u0RX_searching_cases s b hs with ⟨hc, _⟩ | ⟨_, x, y, z, he⟩
    · exact absurd h1 hc.2.1
    · have hf2 : (handleFailStateIter
          { s with U0TXBUF := s.U0TXBUF ++ [b], sncsw1 := x, sncsw2 := y, sncsw3 := z }).fail
            = s.fail := by
        simp [handleFailStateIter, handleFailStateBody, hf]
      obtain ⟨s1, hr, hf1, hs1, hflags⟩ := ih
        (handleFailStateIter
          { s with U0TXBUF := s.U0TXBUF ++ [b], sncsw1 := x, sncsw2 := y, sncsw3 := z })
        (by rw [hf2]; exact hf)
        (by simp [handleFailStateIter, handleFailStateBody, hf])
        (by simp [handleFailStateIter, handleFailStateBody, hf])
        (by simp [handleFailStateIter, handleFailStateBody, hf])
        (by simp [handleFailStateIter, handleFailStateBody, hf])
      refine ⟨s1, ?_, by rw [hf1, hf2], hs1, hflags⟩
      simp only [rxWithLoop, run, step, he, Option.some_bind]
      exact hr

/-- Claim C8, evaluated on the code: from the initial state, after a rejected
frame and a resynchronisation by `'E','N','D',255`, a second frame with a wrong
marker is rejected with `'s'` (link Searching) while the three progress flags
are still set; the single byte 255 then resynchronises the link. -/
theorem lone_255_resyncs_after_reject :
    (run (initState 0) rejectResyncReject).map
        (fun s => (s.U0TXBUF.getLast?, s.syncd, s.sncsw1, s.sncsw2, s.sncsw3))
      = some (some 115, 0, 1, 1, 1) ∧
    (run (initState 0) (rejectResyncReject ++ [Event.rx 255])).map (fun s => s.syncd)
      = some 1 := by
  constructor <;> rfl

theorem minPulse_fits : minPulse % 65536 = minPulse := by
  decide

/-- One transition from a Searching state with `fail` set and neutral channels
returns; unless it resynchronises the link, `fail` stays set and the channels
stay neutral. -/
theorem step_searching (s : State) (e : Event) (hs : s.syncd = 0) (hf : s.fail ≠ 0)
    (hch : channels s = neutral) :
    ∃ s1, step s e = some s1 ∧ (s1.syncd = 0 → s1.fail ≠ 0 ∧ channels s1 = neutral) := by
  cases e with
  | rx cmd =>
    rcases u0RX_searching_cases s cmd hs with ⟨_, he⟩ | ⟨_, a, b, c, he⟩
    · refine ⟨_, he, ?_⟩
      intro h
      simp at h
    · exact ⟨_, he, fun _ => ⟨hf, hch⟩⟩
  | poll =>
    refine ⟨_, rfl, fun _ => ?_⟩
    split
    · rw [parseCmd_eq_reject s (Or.inr hs)]
      exact ⟨hf, hch⟩
    · exact ⟨hf, hch⟩
  | call =>
    refine ⟨_, rfl, fun _ => ?_⟩
    rw [parseCmd_eq_reject s (Or.inr hs)]
    exact ⟨hf, hch⟩
  | trip =>
    refine ⟨_, rfl, fun _ => ?_⟩
    rw [if_pos hf]
    refine ⟨hf, ?_⟩
    simp [channels, handleFailStateEntry, neutral, minPulse_fits]
  | loop =>
    refine ⟨_, rfl, fun _ => ?_⟩
    simp only [handleFailStateIter, if_pos hf]
    exact ⟨hf, hch⟩
  | timeout =>
    refine ⟨_, rfl, fun _ => ?_⟩
    exact ⟨by simp [TAFailOut], hch⟩

theorem advance_mono (p q b : Nat) (h : p ≤ q) : advance p b ≤ advance q b := by
  rcases Nat.eq_or_lt_of_le h with rfl | hlt
  · exact le_refl _
  · have h1 : advance p b ≤ p + 1 := by
      unfold advance
      split <;> omega
    have h2 := advance_ge q b
    omega

theorem track_mono (bs : List Nat) : ∀ p q, p ≤ q → track p bs ≤ track q bs := by
  induction bs with
  | nil => intro p q h; exact h
  | cons b bs ih => intro p q h; exact ih _ _ (advance_mono p q b h)

/-- One transition other than a byte reception, from a Searching state with
`fail` set: the link stays Searching, `fail` stays set, the flags stay chained
and the recogniser does not move forward. -/
theorem step_other_progress (s : State) (e : Event) (hs : s.syncd = 0) (hf : s.fail ≠ 0)
    (hc : flagsChained s) (he : ∀ b, e ≠ Event.rx b) :
    ∃ s1, step s e = some s1 ∧ s1.syncd = 0 ∧ s1.fail ≠ 0 ∧ flagsChained s1 ∧
      progress s1 ≤ progress s := by
  cases e with
  | rx cmd => exact absurd rfl (he cmd)
  | poll =>
    refine ⟨_, rfl, ?_⟩
    split
    · rw [parseCmd_eq_reject s (Or.inr hs)]
      exact ⟨rfl, hf, hc, by simp [progress, hs]⟩
    · exact ⟨hs, hf, hc, le_refl _⟩
  | call =>
    refine ⟨_, rfl, ?_⟩
    rw [parseCmd_eq_reject s (Or.inr hs)]
    exact ⟨rfl, hf, hc, by simp [progress, hs]⟩
  | trip =>
    refine ⟨_, rfl, ?_⟩
    rw [if_pos hf]
    exact ⟨hs, hf, hc, by simp [progress, handleFailStateEntry]⟩
  | loop =>
    refine ⟨_, rfl, ?_⟩
    simp only [handleFailStateIter, if_pos hf]
    exact ⟨rfl, hf, by simp [flagsChained, handleFailStateBody],
      by simp [progress, handleFailStateBody]⟩
  | timeout =>
    refine ⟨_, rfl, ?_⟩
    exact ⟨hs, by simp [TAFailOut], hc, by simp [progress, TAFailOut]⟩

/-- A byte reception that leaves the link Searching leaves `fail` as it was. -/
theorem u0RX_searching_fail (s s1 : State) (cmd : Nat) (hs : s.syncd = 0)
    (hu : u0RX s cmd = some s1) (hs1 : s1.syncd = 0) : s1.fail = s.fail := by
  rcases u0RX_searching_cases s cmd hs with ⟨_, he⟩ | ⟨_, a, b, c, he⟩
  · rw [he] at hu
    rw [← Option.some.inj hu] at hs1
    simp at hs1
  · rw [he] at hu
    rw [← Option.some.inj hu]

/-- When the received bytes cannot take the recogniser to 4, no transition
resynchronises the link. -/
theorem noResync_of_track (evs : List Event) :
    ∀ s, s.syncd = 0 → s.fail ≠ 0 → flagsChained s →
      track (progress s) (bytesOf evs) < 4 → noResync s evs = true := by
  induction evs with
  | nil => intro s _ _ _ _; rfl
  | cons e es ih =>
    intro s hs hf hc ht
    by_cases hrx : ∃ b, e = Event.rx b
    · obtain ⟨b, rfl⟩ := hrx
      obtain ⟨s1, hu, hc1, hp1, _⟩ := u0RX_progress s b hs hc
      have ht1 : track (progress s1) (bytesOf es) < 4 := by rw [hp1]; exact ht
      have hs1 : s1.syncd = 0 := by
        by_contra h
        have h4 := (progress_eq_four_iff s1).2 h
        have hge := track_ge (bytesOf es) (progress s1)
        omega
      have hf1 : s1.fail ≠ 0 := by
        rw [u0RX_searching_fail s s1 b hs hu hs1]
        exact hf
      have hstep : step s (Event.rx b) = some s1 := hu
      simp only [noResync, hstep, hs1, decide_True, Bool.true_and]
      exact ih s1 hs1 hf1 hc1 ht1
    · have hne : ∀ b, e ≠ Event.rx b := fun b h => hrx ⟨b, h⟩
      obtain ⟨s1, hstep, hs1, hf1, hc1, hp1⟩ := step_other_progress s e hs hf hc hne
      have hb : bytesOf (e :: es) = bytesOf es := by
        cases e with
        | rx b => exact absurd rfl (hne b)
        | poll => rfl
        | call => rfl
        | trip => rfl
        | loop => rfl
        | timeout => rfl
      rw [hb] at ht
      have ht1 : track (progress s1) (bytesOf es) < 4 :=
        lt_of_le_of_lt (track_mono _ _ _ hp1) ht
      simp only [noResync, hstep, hs1, decide_True, Bool.true_and]
      exact ih s1 hs1 hf1 hc1 ht1

/-- As long as no transition resynchronises the link, every transition sequence
from a Searching state with `fail` set and neutral channels returns, with
`fail` set, the link Searching and the channels neutral. -/
theorem run_noResync (evs : List Event) :
    ∀ s, s.syncd = 0 → s.fail ≠ 0 → channels s = neutral → noResync s evs = true →
      ∃ s1, run s evs = some s1 ∧ channels s1 = neutral ∧ s1.fail ≠ 0 ∧ s1.syncd = 0 := by
  induction evs with
  | nil =>
    intro s hs hf hch _
    exact ⟨s, rfl, hch, hf, hs⟩
  | cons e es ih =>
    intro s hs hf hch hno
    obtain ⟨s1, hstep, hkeep⟩ := step_searching s e hs hf hch
    simp only [noResync, hstep, Bool.and_eq_true, decide_eq_true_eq] at hno
    obtain ⟨hf1, hch1⟩ := hkeep hno.1
    obtain ⟨s2, hr, h2⟩ := ih s1 hno.1 hf1 hch1 hno.2
    refine ⟨s2, ?_, h2⟩
    simp only [run, hstep, Option.some_bind]
    exact hr

/-- What holds of the fail-safe on the code: from a state with `fail` set, the link
Searching and all six channels at `minPulse`, every sequence of transitions
in which no transition resynchronises the link returns with the channels at
`minPulse`, `fail` set and the link Searching; with the progress flags clear at
the start, that covers every sequence whose received bytes do not contain
`'E','N','D',255` as a subsequence. -/
theorem failsafe_holds_while_searching (s : State) (evs : List Event) (hf : s.fail ≠ 0)
    (hs : s.syncd = 0) (hch : channels s = neutral) :
    (noResync s evs = true →
      ∃ s1, run s evs = some s1 ∧ channels s1 = neutral ∧ s1.fail ≠ 0 ∧ s1.syncd = 0) ∧
    (s.sncsw1 = 0 → s.sncsw2 = 0 → s.sncsw3 = 0 →
      ¬ List.Sublist escapeSeq (bytesOf evs) → noResync s evs = true) := by
  refine ⟨run_noResync evs s hs hf hch, ?_⟩
  intro h1 h2 h3 hn
  have hc : flagsChained s := by
    constructor
    · intro h; exact absurd h2 h
    · intro h; exact absurd h3 h
  apply noResync_of_track evs s hs hf hc
  rw [progress_of_clear s hs h1]
  have hle := track_le_four (bytesOf evs) 0 (by omega)
  have hne : track 0 (bytesOf evs) ≠ 4 := by
    intro h4
    apply hn
    have hseg4 : escapeSegment 0 4 = escapeSeq := rfl
    rw [← hseg4, ← le_track_iff (bytesOf evs) 0 4 (by omega) (le_refl 4)]
    omega
  omega

/-- Claim C9, evaluated on the code: after a resynchronisation and a rejected
frame the three progress flags are still set; the fail-safe then trips and
`handleFailState` neutralises the outputs (`fail = 1`, Searching, all six
channels at `minPulse`).  The single byte 255 now clears `fail` and
resynchronises the link, and the frame that follows moves channel 1 to
`minPulse - 80`, although the bytes received since the trip do not contain
`'E','N','D',255`. -/
theorem stale_flags_end_failsafe :
    (run (initState 0) staleFlagsTripped).map
        (fun s => (s.fail, s.syncd, s.sncsw1, s.sncsw2, s.sncsw3, channels s))
      = some (1, 0, 1, 1, 1, [20400, 20400, 20400, 20400, 20400, 20400]) ∧
    neutral = [20400, 20400, 20400, 20400, 20400, 20400] ∧
    ¬ List.Sublist escapeSeq (255 :: endToEndFrame) ∧
    (run (initState 0) (staleFlagsTripped ++ [Event.rx 255])).map
        (fun s => (s.fail, s.syncd, channels s))
      = some (0, 1, [20400, 20400, 20400, 20400, 20400, 20400]) ∧
    (run (initState 0) (staleFlagsTripped ++ [Event.rx 255] ++ rxAll endToEndFrame ++
          [Event.poll])).map (fun s => (s.fail, s.U0TXBUF.getLast?, channels s))
      = some (0, some 71, [20320, 20240, 20160, 20080, 20000, 19920]) := by
  refine ⟨rfl, rfl, by decide, rfl, rfl⟩

/-! ## The elapsed-silence counter -/

theorem storeByte_TAR (s : State) (i : Fin 14) (cmd : Nat) :
    (storeByte s i cmd).TAR = s.TAR := by
  unfold storeByte
  dsimp only
  split <;> rfl

/-- Claim C11, as stated, fails: a byte received while Searching leaves the
Timer A count `TAR` at 5, and the byte 255 that completes the escape sequence
leaves `TAR` at 5 as well (it clears the Timer B count `TBR`). -/
theorem u0RX_does_not_reset_TAR :
    runningTimersState.syncd = 0 ∧
    (u0RX runningTimersState 0).map (fun s => (s.syncd, s.TAR)) = some (0, 5) ∧
    (u0RX armedTimersState 255).map (fun s => (s.syncd, s.TAR, s.TBR)) = some (1, 5, 0) := by
  refine ⟨rfl, rfl, rfl⟩

/-- Claim C11, amended: an invocation of `u0RX` that does not complete the escape
sequence, that is a byte stored on a Synchronized link or a byte after which
the link is still Searching, leaves the Timer A count `TAR` unchanged. -/
theorem u0RX_keeps_TAR (s s1 : State) (cmd : Nat) (hu : u0RX s cmd = some s1)
    (hno : s.syncd ≠ 0 ∨ s1.syncd = 0) : s1.TAR = s.TAR := by
  by_cases hs : s.syncd = 0
  · rcases u0RX_searching_cases s cmd hs with ⟨_, he⟩ | ⟨_, a, b, c, he⟩
    · rw [he] at hu
      rcases hno with h | h
      · exact absurd hs h
      · rw [← Option.some.inj hu] at h
        simp at h
    · rw [he] at hu
      rw [← Option.some.inj hu]
  · by_cases hi : s.index < 14
    · rw [u0RX_synced s cmd hs hi] at hu
      rw [← Option.some.inj hu, storeByte_TAR]
    · rw [u0RX_synced_none s cmd hs hi] at hu
      exact absurd hu (by simp)

/-- Witness for `u0RX_keeps_TAR`. -/
theorem u0RX_keeps_TAR_witness :
    u0RX runningTimersState 69 =
        some { runningTimersState with U0TXBUF := [69], sncsw1 := 1 } ∧
    ({ runningTimersState with U0TXBUF := [69], sncsw1 := 1 } : State).TAR
      = runningTimersState.TAR :=
  ⟨rfl, u0RX_keeps_TAR runningTimersState _ 69 rfl (Or.inr rfl)⟩

/-- Claim C12: for every state and frame buffer content, `parseCmd` resets `index`
to 0, clears `parse` and resets `TAR` to 0, and it emits exactly one of `'G'`,
`'k'`, `'s'`, so this holds on the accepting, the checksum-failure and the
rejecting path alike. -/
theorem parseCmd_resets_counters (s : State) :
    (parseCmd s).index = 0 ∧ (parseCmd s).parse = 0 ∧ (parseCmd s).TAR = 0 ∧
    ((parseCmd s).U0TXBUF = s.U0TXBUF ++ [71] ∨ (parseCmd s).U0TXBUF = s.U0TXBUF ++ [107] ∨
      (parseCmd s).U0TXBUF = s.U0TXBUF ++ [115]) := by
  by_cases h : s.cmdArr 0 ≠ 67 ∨ s.syncd = 0
  · rw [parseCmd_eq_reject s h]
    exact ⟨rfl, rfl, rfl, Or.inr (Or.inr rfl)⟩
  · have hmark : s.cmdArr 0 = 67 := by
      by_contra hm
      exact h (Or.inl hm)
    have hsync : s.syncd ≠ 0 := fun hs => h (Or.inr hs)
    by_cases hsum : checksum s = s.cmdArr 9
    · rw [parseCmd_eq_accept s hsync hmark hsum]
      simp [setSwitches_frame, setServos]
    · rw [parseCmd_eq_nak s hsync hmark hsum]
      exact ⟨rfl, rfl, rfl, Or.inr (Or.inl rfl)⟩

/-- Claim C14: `calcSrvo` is monotonic non-decreasing, and constant from 157 on:
for `p ≤ q`, `calcSrvo p ≤ calcSrvo q`, and `calcSrvo p = calcSrvo 157` when
`157 ≤ p`. -/
theorem calcSrvo_mono (p q : Nat) (hpq : p ≤ q) :
    calcSrvo p ≤ calcSrvo q ∧ (157 ≤ p → calcSrvo p = calcSrvo 157) := by
  unfold calcSrvo
  constructor
  · split <;> split <;> omega
  · intro h
    rw [if_neg (by omega)]
    rfl

/-- Witness for `calcSrvo_mono`. -/
theorem calcSrvo_mono_witness :
    (200 : Nat) ≤ 255 ∧ calcSrvo 200 ≤ calcSrvo 255 ∧ calcSrvo 200 = calcSrvo 157 :=
  ⟨by decide, (calcSrvo_mono 200 255 (by decide)).1, (calcSrvo_mono 200 255 (by decide)).2 (by decide)⟩

/-! ## Fail handling and the timeout handler -/

/-- Claim C16: the neutralisation of `handleFailState` sets all six channel compare
registers to `minPulse` from any state and is idempotent: applied any number of
further times it yields the same state as the first application. -/
theorem handleFailStateEntry_idempotent (s : State) (n : Nat) :
    channels (handleFailStateEntry s) = neutral ∧
    handleFailStateEntry^[n + 1] s = handleFailStateEntry s ∧
    channels (handleFailStateEntry^[n + 1] s) = neutral := by
  have h1 : channels (handleFailStateEntry s) = neutral := by
    simp [channels, handleFailStateEntry, neutral, minPulse_fits]
  have h2 : handleFailStateEntry^[n + 1] s = handleFailStateEntry s := by
    induction n with
    | zero => rfl
    | succ k ih =>
      rw [Function.iterate_succ_apply', ih]
      rfl
  exact ⟨h1, h2, by rw [h2]; exact h1⟩

/-- Claim C17: the timeout handler `TAFailOut` sets `fail` and leaves the frame
buffer, `index`, `parse`, `syncd`, the three progress flags, the six channel
compare registers and both port output registers unchanged. -/
theorem TAFailOut_frame (s : State) :
    (TAFailOut s).fail = 1 ∧
    (TAFailOut s).cmdArr = s.cmdArr ∧ (TAFailOut s).index = s.index ∧
    (TAFailOut s).parse = s.parse ∧ (TAFailOut s).syncd = s.syncd ∧
    (TAFailOut s).sncsw1 = s.sncsw1 ∧ (TAFailOut s).sncsw2 = s.sncsw2 ∧
    (TAFailOut s).sncsw3 = s.sncsw3 ∧ channels (TAFailOut s) = channels s ∧
    (TAFailOut s).P4OUT = s.P4OUT ∧ (TAFailOut s).P1OUT = s.P1OUT :=
  ⟨rfl, rfl, rfl, rfl, rfl, rfl, rfl, rfl, rfl, rfl, rfl⟩

/-- Any number of recovery-loop iterations leaves every field other than `syncd`
and the three progress flags as it was. -/
theorem handleFailStateIter_iterate_frame (n : Nat) :
    ∀ s, (handleFailStateIter^[n] s).P4OUT = s.P4OUT ∧
      (handleFailStateIter^[n] s).P1OUT = s.P1OUT ∧
      (handleFailStateIter^[n] s).cmdArr = s.cmdArr ∧
      (handleFailStateIter^[n] s).index = s.index ∧
      (handleFailStateIter^[n] s).parse = s.parse ∧
      (handleFailStateIter^[n] s).fail = s.fail ∧
      (handleFailStateIter^[n] s).TAR = s.TAR ∧
      (handleFailStateIter^[n] s).TBR = s.TBR ∧
      (handleFailStateIter^[n] s).TACCTL0 = s.TACCTL0 ∧
      (handleFailStateIter^[n] s).U0TXBUF = s.U0TXBUF ∧
      channels (handleFailStateIter^[n] s) = channels s := by
  induction n with
  | zero =>
    intro s
    exact ⟨rfl, rfl, rfl, rfl, rfl, rfl, rfl, rfl, rfl, rfl, rfl⟩
  | succ k ih =>
    intro s
    rw [Function.iterate_succ_apply]
    have hstep : (handleFailStateIter s).P4OUT = s.P4OUT ∧
        (handleFailStateIter s).P1OUT = s.P1OUT ∧
        (handleFailStateIter s).cmdArr = s.cmdArr ∧
        (handleFailStateIter s).index = s.index ∧
        (handleFailStateIter s).parse = s.parse ∧
        (handleFailStateIter s).fail = s.fail ∧
        (handleFailStateIter s).TAR = s.TAR ∧
        (handleFailStateIter s).TBR = s.TBR ∧
        (handleFailStateIter s).TACCTL0 = s.TACCTL0 ∧
        (handleFailStateIter s).U0TXBUF = s.U0TXBUF ∧
        channels (handleFailStateIter s) = channels s := by
      unfold handleFailStateIter
      split
      · exact ⟨rfl, rfl, rfl, rfl, rfl, rfl, rfl, rfl, rfl, rfl, rfl⟩
      · exact ⟨rfl, rfl, rfl, rfl, rfl, rfl, rfl, rfl, rfl, rfl, rfl⟩
    obtain ⟨a1, a2, a3, a4, a5, a6, a7, a8, a9, a10, a11⟩ := ih (handleFailStateIter s)
    obtain ⟨b1, b2, b3, b4, b5, b6, b7, b8, b9, b10, b11⟩ := hstep
    exact ⟨a1.trans b1, a2.trans b2, a3.trans b3, a4.trans b4, a5.trans b5, a6.trans b6,
      a7.trans b7, a8.trans b8, a9.trans b9, a10.trans b10, a11.trans b11⟩

/-- Claim C20: fail handling, the neutralisation followed by any number of
recovery-loop iterations, leaves both port output registers, the frame buffer,
`index` and `parse` unchanged, and also `fail`, the timer registers and the
transmit history: only the six channel compare registers, `syncd` and the
three progress flags can change. -/
theorem handleFailState_frame (s : State) (n : Nat) :
    (handleFailStateIter^[n] (handleFailStateEntry s)).P4OUT = s.P4OUT ∧
    (handleFailStateIter^[n] (handleFailStateEntry s)).P1OUT = s.P1OUT ∧
    (handleFailStateIter^[n] (handleFailStateEntry s)).cmdArr = s.cmdArr ∧
    (handleFailStateIter^[n] (handleFailStateEntry s)).index = s.index ∧
    (handleFailStateIter^[n] (handleFailStateEntry s)).parse = s.parse ∧
    (handleFailStateIter^[n] (handleFailStateEntry s)).fail = s.fail ∧
    (handleFailStateIter^[n] (handleFailStateEntry s)).TAR = s.TAR ∧
    (handleFailStateIter^[n] (handleFailStateEntry s)).TBR = s.TBR ∧
    (handleFailStateIter^[n] (handleFailStateEntry s)).TACCTL0 = s.TACCTL0 ∧
    (handleFailStateIter^[n] (handleFailStateEntry s)).U0TXBUF = s.U0TXBUF := by
  obtain ⟨a1, a2, a3, a4, a5, a6, a7, a8, a9, a10, _⟩ :=
    handleFailStateIter_iterate_frame n (handleFailStateEntry s)
  exact ⟨a1, a2, a3, a4, a5, a6, a7, a8, a9, a10⟩

/-! ## Padding bytes -/

/-- The switch command written as one update, its two tests reading the buffer of
the state it starts from. -/
theorem setSwitches_eq (s : State) :
    setSwitches s =
      { s with
        P4OUT :=
          if s.cmdArr 7 &&& 0x80 ≠ 0 then
            (if s.cmdArr 7 &&& 0x40 ≠ 0 then s.P4OUT ||| 0x01 else s.P4OUT &&& 0xFE)
          else (if s.cmdArr 7 &&& 0x40 ≠ 0 then s.P4OUT ||| 0x01 else s.P4OUT &&& 0xFE) &&& 0x7F
        P1OUT := if s.cmdArr 7 &&& 0x80 ≠ 0 then s.P1OUT ||| 0x80 else s.P1OUT } := by
  unfold setSwitches
  dsimp only
  split <;> split <;> rfl

/-- Claim C18: for every state and every two frame buffers that agree on
`byte[0..9]`, `parseCmd` emits the same acknowledgement and produces the same
channel registers, port outputs, link state and progress flags: the result
differs in the buffer contents only. -/
theorem parseCmd_ignores_padding (s : State) (f g : Fin 14 → Nat)
    (h : ∀ i : Fin 14, i.val ≤ 9 → f i = g i) :
    parseCmd { s with cmdArr := f } = { parseCmd { s with cmdArr := g } with cmdArr := f } ∧
    (parseCmd { s with cmdArr := f }).U0TXBUF = (parseCmd { s with cmdArr := g }).U0TXBUF ∧
    channels (parseCmd { s with cmdArr := f }) = channels (parseCmd { s with cmdArr := g }) ∧
    (parseCmd { s with cmdArr := f }).P4OUT = (parseCmd { s with cmdArr := g }).P4OUT ∧
    (parseCmd { s with cmdArr := f }).P1OUT = (parseCmd { s with cmdArr := g }).P1OUT ∧
    (parseCmd { s with cmdArr := f }).syncd = (parseCmd { s with cmdArr := g }).syncd := by
  have h0 : f 0 = g 0 := h 0 (by decide)
  have h1 : f 1 = g 1 := h 1 (by decide)
  have h2 : f 2 = g 2 := h 2 (by decide)
  have h3 : f 3 = g 3 := h 3 (by decide)
  have h4 : f 4 = g 4 := h 4 (by decide)
  have h5 : f 5 = g 5 := h 5 (by decide)
  have h6 : f 6 = g 6 := h 6 (by decide)
  have h7 : f 7 = g 7 := h 7 (by decide)
  have h8 : f 8 = g 8 := h 8 (by decide)
  have h9 : f 9 = g 9 := h 9 (by decide)
  have key : parseCmd { s with cmdArr := f }
      = { parseCmd { s with cmdArr := g } with cmdArr := f } := by
    simp only [parseCmd, setServos, setSwitches_eq, h0, h1, h2, h3, h4, h5, h6, h7, h8, h9]
    split_ifs <;> rfl
  refine ⟨key, by rw [key], ?_, by rw [key], by rw [key], by rw [key]⟩
  rw [key]
  rfl

/-- Witness for `parseCmd_ignores_padding`: two buffers that differ in `byte[13]`. -/
theorem parseCmd_ignores_padding_witness :
    (∀ i : Fin 14, i.val ≤ 9 →
      frameOf [67, 10, 20, 30, 40, 50, 60, 64, 0, 102, 0, 0, 0, 9] i = acceptState.cmdArr i) ∧
    (parseCmd { acceptState with
        cmdArr := frameOf [67, 10, 20, 30, 40, 50, 60, 64, 0, 102, 0, 0, 0, 9] }).U0TXBUF
      = (parseCmd { acceptState with cmdArr := acceptState.cmdArr }).U0TXBUF :=
  ⟨by decide,
   (parseCmd_ignores_padding acceptState
      (frameOf [67, 10, 20, 30, 40, 50, 60, 64, 0, 102, 0, 0, 0, 9]) acceptState.cmdArr
      (by decide)).2.1⟩

/-! ## Range of the channel compare registers -/

theorem storeByte_channels (s : State) (i : Fin 14) (cmd : Nat) :
    channels (storeByte s i cmd) = channels s := by
  unfold storeByte
  dsimp only
  split <;> rfl

/-- The byte-reception handler writes no channel compare register. -/
theorem u0RX_channels (s s1 : State) (cmd : Nat) (hu : u0RX s cmd = some s1) :
    channels s1 = channels s := by
  by_cases hs : s.syncd = 0
  · rcases u0RX_searching_cases s cmd hs with ⟨_, he⟩ | ⟨_, a, b, c, he⟩
    · rw [he] at hu
      rw [← Option.some.inj hu]
      rfl
    · rw [he] at hu
      rw [← Option.some.inj hu]
      rfl
  · by_cases hi : s.index < 14
    · rw [u0RX_synced s cmd hs hi] at hu
      rw [← Option.some.inj hu, storeByte_channels]
      rfl
    · rw [u0RX_synced_none s cmd hs hi] at hu
      exact absurd hu (by simp)

/-- The value `parseCmd` computes for a channel is inside the range. -/
theorem setpoint_in_range (pos : Nat) :
    minPulse - 157 * 8 ≤ (minPulse - calcSrvo pos) % 65536 ∧
    (minPulse - calcSrvo pos) % 65536 ≤ minPulse := by
  rw [store_channel]
  have h0 := calcSrvo_nonneg pos
  have h1 := calcSrvo_le pos
  unfold minPulse
  omega

/-- The frame processing keeps the channel registers in range. -/
theorem parseCmd_channelsInRange (s : State) (h : channelsInRange s) :
    channelsInRange (parseCmd s) := by
  by_cases hr : s.cmdArr 0 ≠ 67 ∨ s.syncd = 0
  · rw [parseCmd_eq_reject s hr]
    exact h
  · have hmark : s.cmdArr 0 = 67 := by
      by_contra hm
      exact hr (Or.inl hm)
    have hsync : s.syncd ≠ 0 := fun hs => hr (Or.inr hs)
    by_cases hsum : checksum s = s.cmdArr 9
    · rw [parseCmd_eq_accept s hsync hmark hsum]
      intro c hc
      simp only [channels, setSwitches_frame, setServos, List.mem_cons, List.mem_singleton,
        List.not_mem_nil, or_false] at hc
      rcases hc with rfl | rfl | rfl | rfl | rfl | rfl <;> exact setpoint_in_range _
    · rw [parseCmd_eq_nak s hsync hmark hsum]
      exact h

/-- Every transition keeps the channel registers in range. -/
theorem step_channelsInRange (s s1 : State) (e : Event) (hstep : step s e = some s1)
    (h : channelsInRange s) : channelsInRange s1 := by
  cases e with
  | rx cmd =>
    have hc := u0RX_channels s s1 cmd hstep
    unfold channelsInRange
    rw [hc]
    exact h
  | poll =>
    simp only [step, Option.some.injEq] at hstep
    rw [← hstep]
    split
    · exact parseCmd_channelsInRange s h
    · exact h
  | call =>
    simp only [step, Option.some.injEq] at hstep
    rw [← hstep]
    exact parseCmd_channelsInRange s h
  | trip =>
    simp only [step, Option.some.injEq] at hstep
    rw [← hstep]
    split
    · intro c hc
      simp only [channels, handleFailStateEntry, minPulse_fits, List.mem_cons,
        List.mem_singleton, List.not_mem_nil, or_false, or_self] at hc
      rw [hc]
      unfold minPulse
      omega
    · exact h
  | loop =>
    simp only [step, Option.some.injEq] at hstep
    rw [← hstep]
    unfold handleFailStateIter
    split
    · exact h
    · exact h
  | timeout =>
    simp only [step, Option.some.injEq] at hstep
    rw [← hstep]
    exact h

theorem run_channelsInRange (evs : List Event) :
    ∀ s s1, run s evs = some s1 → channelsInRange s → channelsInRange s1 := by
  induction evs with
  | nil =>
    intro s s1 hr h
    rw [← Option.some.inj hr]
    exact h
  | cons e es ih =>
    intro s s1 hr h
    simp only [run] at hr
    cases hstep : step s e with
    | none => simp [hstep] at hr
    | some s2 =>
      rw [hstep] at hr
      exact ih s2 s1 hr (step_channelsInRange s s2 e hstep h)

theorem initState_channelsInRange (p1out : Nat) : channelsInRange (initState p1out) := by
  intro c hc
  simp only [channels, initState, minPulse_fits, List.mem_cons, List.mem_singleton,
    List.not_mem_nil, or_false, or_self] at hc
  rw [hc]
  unfold minPulse
  omega

/-- Claim C15: in every state reached from the initialised state by byte
receptions, frame processing, timeouts and fail handling, each of the six
channel compare registers lies between `minPulse - 157*8 = 19144` and
`minPulse = 20400`; and for every byte `b` the value `minPulse - calcSrvo b`
fits a 16-bit signed `int`. -/
theorem channels_stay_in_range (p1out : Nat) (evs : List Event) (s1 : State)
    (hr : run (initState p1out) evs = some s1) (b : Nat) :
    (∀ c ∈ channels s1, 19144 ≤ c ∧ c ≤ 20400) ∧
    minPulse - 157 * 8 = 19144 ∧ minPulse = 20400 ∧
    (-32768 ≤ minPulse - calcSrvo b ∧ minPulse - calcSrvo b ≤ 32767) := by
  have h := run_channelsInRange evs (initState p1out) s1 hr (initState_channelsInRange p1out)
  have h0 := calcSrvo_nonneg b
  have h1 := calcSrvo_le b
  refine ⟨?_, by decide, rfl, ?_⟩
  · intro c hc
    have := h c hc
    unfold minPulse at this
    omega
  · unfold minPulse
    omega

/-- Witness for `channels_stay_in_range`: after an accepted frame with position
bytes 200 and 255, a fail-safe trip, a resynchronisation and a second accepted
frame. -/
theorem channels_stay_in_range_witness :
    (run (initState 0) (mixedTrace.take 15)).map (fun s => (s.U0TXBUF.getLast?, channels s))
      = some (some 71, [19144, 20240, 20160, 20080, 20000, 19144]) ∧
    (run (initState 0) mixedTrace).map (fun s => (s.U0TXBUF.getLast?, channels s))
      = some (some 71, [20320, 20240, 20160, 20080, 20000, 19920]) ∧
    ∃ s1, run (initState 0) mixedTrace = some s1 ∧ ∀ c ∈ channels s1, 19144 ≤ c ∧ c ≤ 20400 := by
  refine ⟨rfl, rfl, ?_⟩
  cases hr : run (initState 0) mixedTrace with
  | none =>
    have h : (run (initState 0) mixedTrace).isSome = true := rfl
    rw [hr] at h
    exact absurd h (by simp)
  | some s1 => exact ⟨s1, rfl, (channels_stay_in_range 0 mixedTrace s1 hr 0).1⟩

/-! ## Frame accumulation -/

theorem storeByte_cmdArr (s : State) (i : Fin 14) (cmd : Nat) :
    (storeByte s i cmd).cmdArr = Function.update s.cmdArr i cmd := by
  unfold storeByte
  dsimp only
  split <;> rfl

theorem storeByte_parse (s : State) (i : Fin 14) (cmd : Nat) :
    (storeByte s i cmd).parse = if (s.index + 1) % 256 ≥ 14 then 1 else s.parse := by
  unfold storeByte
  dsimp only
  split <;> rfl

/-- On a Synchronized link, bytes that fit the rest of the buffer are stored in
arrival order from `index` on; no channel register changes, and the frame-ready
flag is raised by the byte that takes `index` to 14 and by no earlier one. -/
theorem feed_fill (bs : List Nat) :
    ∀ s, s.syncd ≠ 0 → s.index + bs.length ≤ 14 →
      ∃ s1, feed s bs = some s1 ∧ s1.syncd = s.syncd ∧ s1.index = s.index + bs.length ∧
        channels s1 = channels s ∧
        (∀ i : Fin 14, s1.cmdArr i =
          if s.index ≤ i.val ∧ i.val < s.index + bs.length then bs.getD (i.val - s.index) 0
          else s.cmdArr i) ∧
        (s.index + bs.length < 14 → s1.parse = s.parse) ∧
        (bs ≠ [] → s.index + bs.length = 14 → s1.parse = 1) := by
  induction bs with
  | nil =>
    intro s _ _
    refine ⟨s, rfl, rfl, rfl, rfl, ?_, fun _ => rfl, fun h => absurd rfl h⟩
    intro i
    rw [if_neg]
    simp only [List.length_nil, Nat.add_zero]
    omega
  | cons b bs ih =>
    intro s hs hlen
    simp only [List.length_cons] at hlen
    have hi : s.index < 14 := by omega
    have hu := u0RX_synced s b hs hi
    have hmod : (s.index + 1) % 256 = s.index + 1 := Nat.mod_eq_of_lt (by omega)
    have hidx : (storeByte { s with U0TXBUF := s.U0TXBUF ++ [b] } ⟨s.index, hi⟩ b).index
        = s.index + 1 := by
      rw [storeByte_index]
      exact hmod
    have hpar : (storeByte { s with U0TXBUF := s.U0TXBUF ++ [b] } ⟨s.index, hi⟩ b).parse
        = if s.index + 1 ≥ 14 then 1 else s.parse := by
      rw [storeByte_parse]
      show (if (s.index + 1) % 256 ≥ 14 then 1 else s.parse) = _
      rw [hmod]
    obtain ⟨s1, h1, h2, h3, h4, h5, h6, h7⟩ :=
      ih (storeByte { s with U0TXBUF := s.U0TXBUF ++ [b] } ⟨s.index, hi⟩ b)
        (by rw [storeByte_syncd]; exact hs) (by rw [hidx]; omega)
    refine ⟨s1, ?_, ?_, ?_, ?_, ?_, ?_, ?_⟩
    · simp only [feed, hu, Option.some_bind]
      exact h1
    · rw [h2, storeByte_syncd]
    · rw [h3, hidx, List.length_cons]
      omega
    · rw [h4, storeByte_channels]
      rfl
    · intro i
      rw [h5 i, hidx, storeByte_cmdArr]
      simp only [List.length_cons]
      by_cases hlt : s.index + 1 ≤ i.val ∧ i.val < s.index + 1 + bs.length
      · rw [if_pos hlt, if_pos (by omega)]
        have hsub : i.val - s.index = (i.val - (s.index + 1)) + 1 := by omega
        rw [hsub, List.getD_cons_succ]
      · rw [if_neg hlt]
        by_cases heq : i.val = s.index
        · have hfin : i = ⟨s.index, hi⟩ := Fin.ext heq
          rw [hfin, Function.update_same, if_pos (by constructor <;> simp)]
          simp
        · have hfin : i ≠ ⟨s.index, hi⟩ := fun h => heq (congrArg Fin.val h)
          rw [Function.update_noteq hfin, if_neg (by omega)]
    · intro hl
      simp only [List.length_cons] at hl
      rw [h6 (by rw [hidx]; omega), hpar, if_neg (by omega)]
    · intro _ hl
      simp only [List.length_cons] at hl
      by_cases hbs : bs = []
      · subst hbs
        simp only [feed, Option.some.injEq] at h1
        simp only [List.length_nil, Nat.add_zero] at hl
        rw [← h1, hpar, if_pos (by omega)]
      · exact h7 hbs (by rw [hidx]; omega)

theorem storeByte_ports (s : State) (i : Fin 14) (cmd : Nat) :
    (storeByte s i cmd).P4OUT = s.P4OUT ∧ (storeByte s i cmd).P1OUT = s.P1OUT := by
  unfold storeByte
  dsimp only
  split <;> exact ⟨rfl, rfl⟩

/-- The byte-reception handler writes neither port output register. -/
theorem u0RX_ports (s s1 : State) (cmd : Nat) (hu : u0RX s cmd = some s1) :
    s1.P4OUT = s.P4OUT ∧ s1.P1OUT = s.P1OUT := by
  by_cases hs : s.syncd = 0
  · rcases u0RX_searching_cases s cmd hs with ⟨_, he⟩ | ⟨_, a, b, c, he⟩
    · rw [he] at hu
      rw [← Option.some.inj hu]
      exact ⟨rfl, rfl⟩
    · rw [he] at hu
      rw [← Option.some.inj hu]
      exact ⟨rfl, rfl⟩
  · by_cases hi : s.index < 14
    · rw [u0RX_synced s cmd hs hi] at hu
      rw [← Option.some.inj hu]
      exact storeByte_ports _ _ _
    · rw [u0RX_synced_none s cmd hs hi] at hu
      exact absurd hu (by simp)

theorem feed_ports (bs : List Nat) :
    ∀ s s1, feed s bs = some s1 → s1.P4OUT = s.P4OUT ∧ s1.P1OUT = s.P1OUT := by
  induction bs with
  | nil =>
    intro s s1 h
    rw [← Option.some.inj h]
    exact ⟨rfl, rfl⟩
  | cons b bs ih =>
    intro s s1 h
    simp only [feed] at h
    cases hu : u0RX s b with
    | none => simp [hu] at h
    | some s2 =>
      rw [hu] at h
      obtain ⟨h1, h2⟩ := ih s2 s1 h
      obtain ⟨h3, h4⟩ := u0RX_ports s s2 b hu
      exact ⟨h1.trans h3, h2.trans h4⟩

/-- Claim C13: from the initial state, for every 14 bytes fed one at a time to
`u0RX`, the run returns with the frame-ready flag `parse` raised, the buffer
holding the 14 bytes in arrival order and the channel registers unchanged;
after every shorter prefix `parse` is still clear and the channel registers are
unchanged; and for the end-to-end frame the following `parseCmd` acknowledges
`'G'`, sets channel 1 to `minPulse - 80` and raises bit 0 of `P4OUT`. -/
theorem frame_ready_on_14th_byte (p1out : Nat) (bs : List Nat) (hlen : bs.length = 14) :
    (∃ s1, feed (initState p1out) bs = some s1 ∧ s1.parse = 1 ∧ s1.cmdArr = frameOf bs ∧
      channels s1 = channels (initState p1out) ∧
      (bs = endToEndFrame →
        (parseCmd s1).U0TXBUF = s1.U0TXBUF ++ [71] ∧ (parseCmd s1).TBCCR1 = minPulse - 80 ∧
        (parseCmd s1).P4OUT &&& 0x01 = 0x01)) ∧
    (∀ k, k < 14 → ∃ sk, feed (initState p1out) (bs.take k) = some sk ∧ sk.parse = 0 ∧
      channels sk = channels (initState p1out)) := by
  have hsync : (initState p1out).syncd ≠ 0 := by
    show (1 : Nat) ≠ 0
    omega
  refine ⟨?_, ?_⟩
  · obtain ⟨s1, h1, h2, _, h4, h5, _, h7⟩ :=
      feed_fill bs (initState p1out) hsync (by rw [hlen]; exact le_refl 14)
    have hcmd : s1.cmdArr = frameOf bs := by
      funext i
      rw [h5 i, if_pos]
      · rfl
      · constructor
        · exact Nat.zero_le _
        · rw [hlen]
          exact i.isLt
    refine ⟨s1, h1, ?_, hcmd, h4, ?_⟩
    · apply h7
      · intro hnil
        rw [hnil] at hlen
        simp at hlen
      · rw [hlen]
        rfl
    · intro hbs
      rw [hbs] at hcmd
      have hs1 : s1.syncd ≠ 0 := by
        rw [h2]
        exact hsync
      have hP4 : s1.P4OUT = 0 := (feed_ports bs (initState p1out) s1 h1).1
      have hmark : s1.cmdArr 0 = 67 := by
        rw [hcmd]
        rfl
      have hsum : checksum s1 = s1.cmdArr 9 := by
        unfold checksum
        rw [hcmd]
        rfl
      have h1v : s1.cmdArr 1 = 10 := by
        rw [hcmd]
        rfl
      have h7v : s1.cmdArr 7 = 64 := by
        rw [hcmd]
        rfl
      rw [parseCmd_eq_accept s1 hs1 hmark hsum]
      refine ⟨?_, ?_, ?_⟩
      · simp [setSwitches_frame, setServos]
      · simp only [setSwitches_frame, setServos, h1v]
        decide
      · simp only [setSwitches_eq, setServos, h7v, hP4]
        decide
  · intro k hk
    have hlk : (bs.take k).length = k := by
      rw [List.length_take, hlen]
      omega
    obtain ⟨sk, h1, _, _, h4, _, h6, _⟩ :=
      feed_fill (bs.take k) (initState p1out) hsync (by rw [hlk]; show 0 + k ≤ 14; omega)
    refine ⟨sk, h1, ?_, h4⟩
    rw [h6 (by rw [hlk]; show 0 + k < 14; omega)]
    rfl

/-- Witness for `frame_ready_on_14th_byte`, at the end-to-end frame. -/
theorem frame_ready_on_14th_byte_witness :
    endToEndFrame.length = 14 ∧
    (run (initState 0) (rxAll endToEndFrame ++ [Event.poll])).map
        (fun s => (s.U0TXBUF.getLast?, s.TBCCR1, s.P4OUT &&& 0x01))
      = some (some 71, 20320, 1) ∧
    (feed (initState 0) (endToEndFrame.take 13)).map (fun s => (s.index, s.parse))
      = some (13, 0) ∧
    ∃ s1, feed (initState 0) endToEndFrame = some s1 ∧ s1.parse = 1 ∧
      s1.cmdArr = frameOf endToEndFrame ∧ (parseCmd s1).U0TXBUF = s1.U0TXBUF ++ [71] ∧
      (parseCmd s1).TBCCR1 = minPulse - 80 ∧ (parseCmd s1).P4OUT &&& 0x01 = 0x01 :=
  ⟨rfl, rfl, rfl,
   (frame_ready_on_14th_byte 0 endToEndFrame rfl).1.imp
     fun _ h => ⟨h.1, h.2.1, h.2.2.1, h.2.2.2.2 rfl⟩⟩

/-! ## Bounds of the frame buffer store -/

/-- The frame processing resets `index` and `parse` on every path. -/
theorem parseCmd_index_parse (s : State) : (parseCmd s).index = 0 ∧ (parseCmd s).parse = 0 := by
  by_cases h : s.cmdArr 0 ≠ 67 ∨ s.syncd = 0
  · rw [parseCmd_eq_reject s h]
    exact ⟨rfl, rfl⟩
  · have hmark : s.cmdArr 0 = 67 := by
      by_contra hm
      exact h (Or.inl hm)
    have hsync : s.syncd ≠ 0 := fun hs => h (Or.inr hs)
    by_cases hsum : checksum s = s.cmdArr 9
    · rw [parseCmd_eq_accept s hsync hmark hsum]
      simp [setSwitches_frame, setServos]
    · rw [parseCmd_eq_nak s hsync hmark hsum]
      exact ⟨rfl, rfl⟩

theorem parseCmd_indexInv (s : State) : indexInv (parseCmd s) := by
  obtain ⟨h1, _⟩ := parseCmd_index_parse s
  constructor
  · rw [h1]
    omega
  · intro h
    rw [h1] at h
    omega

/-- A byte received with the frame-ready flag clear is stored inside the buffer
(or not stored at all), and the index invariant is kept. -/
theorem u0RX_indexInv (s : State) (cmd : Nat) (hinv : indexInv s) (hp : s.parse = 0) :
    (s.syncd ≠ 0 → s.index < 14) ∧ ∃ s1, u0RX s cmd = some s1 ∧ indexInv s1 := by
  obtain ⟨hle, h14⟩ := hinv
  have hlt : s.index < 14 := by
    rcases Nat.eq_or_lt_of_le hle with h | h
    · exact absurd hp (h14 h)
    · exact h
  refine ⟨fun _ => hlt, ?_⟩
  by_cases hs : s.syncd = 0
  · rcases u0RX_searching_cases s cmd hs with ⟨_, he⟩ | ⟨_, a, b, c, he⟩
    · refine ⟨_, he, ?_⟩
      constructor
      · show (0 : Nat) ≤ 14
        omega
      · intro h
        have h0 : (0 : Nat) = 14 := h
        omega
    · exact ⟨_, he, hle, h14⟩
  · refine ⟨_, u0RX_synced s cmd hs hlt, ?_⟩
    have hmod : (s.index + 1) % 256 = s.index + 1 := Nat.mod_eq_of_lt (by omega)
    constructor
    · rw [storeByte_index]
      show (s.index + 1) % 256 ≤ 14
      omega
    · intro h
      rw [storeByte_index] at h
      have h' : (s.index + 1) % 256 = 14 := h
      rw [storeByte_parse]
      show (if (s.index + 1) % 256 ≥ 14 then 1 else s.parse) ≠ 0
      rw [if_pos (by omega)]
      omega

/-- Every transition other than a byte reception keeps the index invariant. -/
theorem step_other_indexInv (s : State) (e : Event) (hinv : indexInv s)
    (he : ∀ b, e ≠ Event.rx b) : ∃ s1, step s e = some s1 ∧ indexInv s1 := by
  cases e with
  | rx cmd => exact absurd rfl (he cmd)
  | poll =>
    refine ⟨_, rfl, ?_⟩
    split
    · exact parseCmd_indexInv s
    · exact hinv
  | call => exact ⟨_, rfl, parseCmd_indexInv s⟩
  | trip =>
    refine ⟨_, rfl, ?_⟩
    split
    · exact hinv
    · exact hinv
  | loop =>
    refine ⟨_, rfl, ?_⟩
    unfold handleFailStateIter
    split
    · exact hinv
    · exact hinv
  | timeout => exact ⟨_, rfl, hinv⟩

/-- Along a sequence in which frames are consumed before the next byte, every
prefix returns, keeps the index invariant, and leaves the rest of the sequence
scheduled the same way. -/
theorem run_framesConsumed (pre : List Event) :
    ∀ s rest, indexInv s → framesConsumed s (pre ++ rest) = true →
      ∃ sp, run s pre = some sp ∧ indexInv sp ∧ framesConsumed sp rest = true := by
  induction pre with
  | nil =>
    intro s rest hinv hfc
    exact ⟨s, rfl, hinv, hfc⟩
  | cons e es ih =>
    intro s rest hinv hfc
    simp only [List.cons_append, framesConsumed, Bool.and_eq_true] at hfc
    obtain ⟨hguard, hrest⟩ := hfc
    have hstep : ∃ s1, step s e = some s1 ∧ indexInv s1 := by
      by_cases hrx : ∃ b, e = Event.rx b
      · obtain ⟨b, rfl⟩ := hrx
        simp only [decide_eq_true_eq] at hguard
        exact (u0RX_indexInv s b hinv hguard).2
      · exact step_other_indexInv s e hinv (fun b h => hrx ⟨b, h⟩)
    obtain ⟨s1, hs1, hinv1⟩ := hstep
    rw [hs1] at hrest
    obtain ⟨sp, hr, hinvp, hfcp⟩ := ih s1 rest hinv1 hrest
    refine ⟨sp, ?_, hinvp, hfcp⟩
    simp only [run, hs1, Option.some_bind]
    exact hr

theorem initState_indexInv (p1out : Nat) : indexInv (initState p1out) := by
  constructor
  · show (0 : Nat) ≤ 14
    omega
  · intro h
    have h0 : (0 : Nat) = 14 := h
    omega

/-- Claim C19: along every sequence of byte receptions, timeouts, fail handling
and frame processing from the initial state in which `parseCmd` has run before
the next byte whenever `parse` was set, the run returns (no store falls outside
the buffer) with `index ≤ 14`, and every byte reception on a Synchronized link
finds `index` in 0..13, which is where `u0RX` stores the byte. -/
theorem u0RX_store_in_bounds (p1out : Nat) (evs : List Event)
    (hfc : framesConsumed (initState p1out) evs = true) :
    (∃ s1, run (initState p1out) evs = some s1 ∧ s1.index ≤ 14) ∧
    (∀ pre b post, evs = pre ++ Event.rx b :: post →
      ∃ sp, run (initState p1out) pre = some sp ∧ sp.index ≤ 14 ∧
        (sp.syncd ≠ 0 → sp.index < 14) ∧ ∃ s1, u0RX sp b = some s1) := by
  constructor
  · obtain ⟨s1, hr, hinv, _⟩ :=
      run_framesConsumed evs (initState p1out) [] (initState_indexInv p1out)
        (by rw [List.append_nil]; exact hfc)
    exact ⟨s1, hr, hinv.1⟩
  · intro pre b post hsplit
    rw [hsplit] at hfc
    obtain ⟨sp, hr, hinv, hfcp⟩ :=
      run_framesConsumed pre (initState p1out) (Event.rx b :: post)
        (initState_indexInv p1out) hfc
    simp only [framesConsumed, Bool.and_eq_true, decide_eq_true_eq] at hfcp
    obtain ⟨hlt, s1, hu, _⟩ := u0RX_indexInv sp b hinv hfcp.1
    exact ⟨sp, hr, hinv.1, hlt, s1, hu⟩

/-- Witness for `u0RX_store_in_bounds`. -/
theorem u0RX_store_in_bounds_witness :
    framesConsumed (initState 0) consumedTrace = true ∧
    (run (initState 0) consumedTrace).map (fun s => (s.syncd, s.index)) = some (1, 3) ∧
    ∃ s1, run (initState 0) consumedTrace = some s1 ∧ s1.index ≤ 14 :=
  ⟨rfl, rfl, (u0RX_store_in_bounds 0 consumedTrace rfl).1⟩

end LRRC
